import Mathlib

/-!
# `pkg/manifestgen/deploysecret`: generation of the deploy-key Secret manifest

A shallow embedding of `deploysecret.go` and proofs about it.

* Go `string` and `[]byte` values are byte sequences (`Bytes`); a `[]byte` that the code
  tests against `nil` is an `Option Bytes`, a `*ssh.KeyPair` an `Option KeyPair`.
* The collaborators whose result depends on the outside world (file system, key parsing
  and generation, the SSH host-key scan, YAML marshalling) are the fields of `Env`.
* Every call of such a collaborator, and every entry into one of the helpers of
  `Generate`, is recorded in the event log of a `Run`, so that statements of the form
  "the scan is not invoked" are statements about that log.
* The pure standard-library functions the code calls (`bytes.Replace`, `path.Join`,
  `net.SplitHostPort`) are embedded as executable definitions.
-/

set_option autoImplicit false
set_option maxRecDepth 100000

namespace Deploysecret

/-! ## Bytes, strings and errors -/

/-- The contents of a Go `string` or `[]byte`: a finite sequence of bytes. -/
abbrev Bytes := List UInt8

/-- The bytes (UTF-8) of a string literal of the source. -/
def lit (s : String) : Bytes := s.data.flatMap String.utf8EncodeChar

/-- A Go `error`: one that carries only a message (`errors.New`, `fmt.Errorf` without `%w`,
or an error of a collaborator), or one built by `fmt.Errorf` with the verb `%w`, which keeps
the error it wraps. -/
inductive GoError where
  | plain (msg : Bytes)
  | wrap (msg : Bytes) (inner : GoError)
deriving DecidableEq, Repr

/-- The method `Error()`: the message of the error. -/
def GoError.Error : GoError → Bytes
  | .plain msg => msg
  | .wrap msg _ => msg

/-- The method `Unwrap()` as seen by `errors.Unwrap`: the wrapped error, if there is one. -/
def GoError.Unwrap : GoError → Option GoError
  | .plain _ => none
  | .wrap _ inner => some inner

deriving instance DecidableEq for Except

/-- The call `fmt.Errorf(pre + "%w", err)`: the message is `pre` followed by the message of
`err`, and the result wraps `err`. -/
def errorfW (pre : Bytes) (err : GoError) : GoError :=
  .wrap (pre ++ err.Error) err

/-! ## Runs: an event log and a result -/

/-- The outcome of running a piece of the program: the events it performed, in order, and
its result, `.error err` standing for Go's `return nil, err`. -/
structure Run (E : Type) (α : Type) where
  log : List E
  res : Except GoError α

/-- Sequencing of runs: the second part runs only when the first one returned no error, and
the logs are appended. -/
def Run.bind {E α β : Type} (m : Run E α) (f : α → Run E β) : Run E β :=
  match m.res with
  | .ok a => ⟨m.log ++ (f a).log, (f a).res⟩
  | .error err => ⟨m.log, .error err⟩

instance {E : Type} : Monad (Run E) where
  pure a := ⟨[], .ok a⟩
  bind := Run.bind

/-- Record one event. -/
def emit {E : Type} (e : E) : Run E Unit := ⟨[e], .ok ()⟩

/-- Return an error: Go's `return nil, err`. -/
def fail {E α : Type} (err : GoError) : Run E α := ⟨[], .error err⟩

/-! ## `bytes.Replace` with `n = 1` -/

/-- The call `bytes.Replace(s, old, new, 1)` for a non-empty `old`: a copy of `s` in which
the first (leftmost) occurrence of `old` is replaced by `new`; `s` itself when `old` does not
occur. -/
def replaceFirst (old new : Bytes) : Bytes → Bytes
  | [] => []
  | c :: cs =>
    if old <+: c :: cs then new ++ (c :: cs).drop old.length
    else c :: replaceFirst old new cs

/-- The function `resourceToString` of the source. -/
def resourceToString (data : Bytes) : Bytes :=
  let data := replaceFirst (lit "  creationTimestamp: null\n") (lit "") data
  let data := replaceFirst (lit "status: \x7b\x7d\n") (lit "") data
  data

/-! ## `path.Join` -/

/-- The byte `/`. -/
def slash : UInt8 := 47

/-- The byte `.`. -/
def dot : UInt8 := 46

/-- The backtracking of `path.Clean` at a `..` element, on the reversed buffer: `out.w--`,
then `for out.w > dotdot && out.index(out.w) != '/' { out.w-- }`. The argument is the
reversed buffer before `out.w--`, the result the reversed buffer after the loop. -/
def backtrackRev (dotdot : Nat) : Bytes → Bytes
  | [] => []
  | c :: front => if front.length > dotdot ∧ c ≠ slash then backtrackRev dotdot front else front

/-- The loop `for r < n` of `path.Clean`: `rest` is `path[r:]`, `out` the bytes written so
far (`out.w` is its length). Each iteration consumes at least one byte of `rest`, so the
bound `fuel` is never reached when it starts at the length of `rest`. -/
def cleanLoop : Nat → Bool → Bytes → Bytes → Nat → Bytes
  | 0, _, _, out, _ => out
  | fuel + 1, rooted, rest, out, dotdot =>
    match rest with
    | [] => out
    | c :: rest1 =>
      if c = slash then
        cleanLoop fuel rooted rest1 out dotdot
      else if c = dot ∧ (rest1 = [] ∨ rest1.head? = some slash) then
        cleanLoop fuel rooted rest1 out dotdot
      else if c = dot ∧ rest1.head? = some dot ∧
          (rest1.tail = [] ∨ rest1.tail.head? = some slash) then
        if out.length > dotdot then
          cleanLoop fuel rooted rest1.tail (backtrackRev dotdot out.reverse).reverse dotdot
        else if rooted = false then
          let out1 := (if out.length > 0 then out ++ [slash] else out) ++ [dot, dot]
          cleanLoop fuel rooted rest1.tail out1 out1.length
        else
          cleanLoop fuel rooted rest1.tail out dotdot
      else
        let out1 :=
          if (rooted = true ∧ out.length ≠ 1) ∨ (rooted = false ∧ out.length ≠ 0)
          then out ++ [slash] else out
        cleanLoop fuel rooted (rest1.dropWhile (fun b => b ≠ slash))
          (out1 ++ c :: rest1.takeWhile (fun b => b ≠ slash)) dotdot

/-- The function `path.Clean` of the Go standard library. -/
def Clean (path : Bytes) : Bytes :=
  if path = [] then lit "."
  else
    let rooted : Bool := path.head? = some slash
    let out :=
      if rooted then cleanLoop path.length rooted path.tail [slash] 1
      else cleanLoop path.length rooted path [] 0
    if out.length = 0 then lit "." else out

/-- The function `path.Join` of the Go standard library: the non-empty elements separated by
`/`, cleaned; the empty string when every element is empty. -/
def Join (elem : List Bytes) : Bytes :=
  if (elem.map List.length).sum = 0 then []
  else
    Clean (elem.foldl
      (fun buf e =>
        if buf.length > 0 ∨ e ≠ [] then (if buf.length > 0 then buf ++ [slash] else buf) ++ e
        else buf)
      [])

/-! ## `net.SplitHostPort` -/

/-- The byte `:`. -/
def colon : UInt8 := 58

/-- The byte `[`. -/
def lbrack : UInt8 := 91

/-- The byte `]`. -/
def rbrack : UInt8 := 93

/-- The index of the first `c` in `s` (`bytealg.IndexByteString`); `none` is Go's `-1`. -/
def indexByte (c : UInt8) : Bytes → Option Nat
  | [] => none
  | b :: bs => if b = c then some 0 else (indexByte c bs).map (fun i => i + 1)

/-- The index of the last `c` in `s` (`bytealg.LastIndexByteString`); `none` is Go's `-1`. -/
def lastIndexByte (c : UInt8) : Bytes → Option Nat
  | [] => none
  | b :: bs =>
    match lastIndexByte c bs with
    | some i => some (i + 1)
    | none => if b = c then some 0 else none

/-- The function `net.SplitHostPort` of the Go standard library. The result is the pair
`(host, port)`, or the reason of the `*net.AddrError`. -/
def SplitHostPort (hostport : Bytes) : Except Bytes (Bytes × Bytes) :=
  match lastIndexByte colon hostport with
  | none => .error (lit "missing port in address")
  | some i =>
    -- the host and the positions `j`, `k` before which no bracket can stand
    let parsed : Except Bytes (Bytes × Nat × Nat) :=
      if hostport.head? = some lbrack then
        match indexByte rbrack hostport with
        | none => .error (lit "missing ']' in address")
        | some close =>
          if close + 1 = hostport.length then .error (lit "missing port in address")
          else if close + 1 = i then .ok ((hostport.take close).drop 1, 1, close + 1)
          else if hostport.get? (close + 1) = some colon then
            .error (lit "too many colons in address")
          else .error (lit "missing port in address")
      else
        if (indexByte colon (hostport.take i)).isSome then
          .error (lit "too many colons in address")
        else .ok (hostport.take i, 0, 0)
    match parsed with
    | .error why => .error why
    | .ok (host, j, k) =>
      if (indexByte lbrack (hostport.drop j)).isSome then
        .error (lit "unexpected '[' in address")
      else if (indexByte rbrack (hostport.drop k)).isSome then
        .error (lit "unexpected ']' in address")
      else .ok (host, hostport.drop (i + 1))

/-! ## Data model -/

/-- Modelled from the spec: the struct `Options` is declared outside `deploysecret.go`; its
fields are the ones listed in section 6 of the specification, which are also the ones the
source reads. `Curve` stands for `elliptic.Curve`. -/
structure Options (Curve : Type) where
  Name : Bytes
  Namespace : Bytes
  SSHHostname : Bytes
  PrivateKeyAlgorithm : Bytes
  RSAKeyBits : Int
  ECDSACurve : Curve
  PrivateKeyPath : Bytes
  Username : Bytes
  Password : Bytes
  CAFilePath : Bytes
  TargetPath : Bytes
  ManifestFile : Bytes

/-- The struct `ssh.KeyPair` of `github.com/fluxcd/pkg/ssh`, of which the source reads and
writes the two fields. -/
structure KeyPair where
  PublicKey : Bytes
  PrivateKey : Bytes
deriving DecidableEq, Repr

/-- The parts of `corev1.Secret` the source sets: `ObjectMeta.Name`, `ObjectMeta.Namespace`
and the map `StringData` (a key that is not in the map is sent to `none`). -/
structure Secret where
  Name : Bytes
  Namespace : Bytes
  StringData : Bytes → Option Bytes

/-- The assignment `secret.StringData[key] = value`. -/
def Secret.set (secret : Secret) (key value : Bytes) : Secret :=
  { secret with StringData := fun k => if k = key then some value else secret.StringData k }

/-- The struct `manifestgen.Manifest`. -/
structure Manifest where
  Path : Bytes
  Content : Bytes
deriving DecidableEq, Repr

/-- Modelled from the spec: the constant `UsernameSecretKey`, declared outside
`deploysecret.go`; section 6 of the specification gives the key as `username`. -/
def UsernameSecretKey : Bytes := lit "username"

/-- Modelled from the spec: the constant `PasswordSecretKey`, declared outside
`deploysecret.go`; section 6 of the specification gives the key as `password`. -/
def PasswordSecretKey : Bytes := lit "password"

/-- Modelled from the spec: the constant `CAFileSecretKey`, declared outside
`deploysecret.go`; section 6 of the specification gives the key as `caFile`. -/
def CAFileSecretKey : Bytes := lit "caFile"

/-- Modelled from the spec: the constant `PrivateKeySecretKey`, declared outside
`deploysecret.go`; section 6 of the specification gives the key as `identity`. -/
def PrivateKeySecretKey : Bytes := lit "identity"

/-- Modelled from the spec: the constant `PublicKeySecretKey`, declared outside
`deploysecret.go`; section 6 of the specification gives the key as `identity.pub`. -/
def PublicKeySecretKey : Bytes := lit "identity.pub"

/-- Modelled from the spec: the constant `KnownHostsSecretKey`, declared outside
`deploysecret.go`; section 6 of the specification gives the key as `known_hosts`. -/
def KnownHostsSecretKey : Bytes := lit "known_hosts"

/-- The constant `defaultSSHPort`. -/
def defaultSSHPort : Nat := 22

/-- What `deploysecret.go` takes from outside: the three algorithm names (constants of the
package declared in another file, whose values the specification does not give) and the
collaborators whose result depends on the outside world. A `[]byte` result that the source
compares with `nil`, and a `*ssh.KeyPair` result, are options; `ioutil.ReadFile` returns a
non-nil slice when it returns no error. -/
structure Env (Signer PublicKey Curve : Type) where
  /-- The constant `RSAPrivateKeyAlgorithm`. -/
  RSAPrivateKeyAlgorithm : Bytes
  /-- The constant `ECDSAPrivateKeyAlgorithm`. -/
  ECDSAPrivateKeyAlgorithm : Bytes
  /-- The constant `Ed25519PrivateKeyAlgorithm`. -/
  Ed25519PrivateKeyAlgorithm : Bytes
  /-- The call `ioutil.ReadFile(path)`. -/
  readFile : Bytes → Except GoError Bytes
  /-- The field `Bytes` of the block returned by `pem.Decode(b)`; `none` when the block is
  `nil`. -/
  pemDecode : Bytes → Option Bytes
  /-- The call `cryptssh.ParsePrivateKey(pemBytes)`. -/
  parsePrivateKey : Bytes → Except GoError Signer
  /-- The method `PublicKey()` of a signer. -/
  publicKey : Signer → PublicKey
  /-- The call `cryptssh.MarshalAuthorizedKey(key)`. -/
  marshalAuthorizedKey : PublicKey → Bytes
  /-- The call `ssh.NewRSAGenerator(bits).Generate()`. -/
  rsaGenerate : Int → Except GoError (Option KeyPair)
  /-- The call `ssh.NewECDSAGenerator(curve).Generate()`. -/
  ecdsaGenerate : Curve → Except GoError (Option KeyPair)
  /-- The call `ssh.NewEd25519Generator().Generate()`. -/
  ed25519Generate : Except GoError (Option KeyPair)
  /-- The call `ssh.ScanHostKey(host, 30*time.Second)`. -/
  sshScanHostKey : Bytes → Except GoError (Option Bytes)
  /-- The call `yaml.Marshal(secret)`. -/
  yamlMarshal : Secret → Except GoError Bytes

/-- The events of a run of `Generate`. -/
inductive Event where
  /-- The first arm of the mode switch (`// noop`) is taken. -/
  | noop
  /-- The function `loadKeyPair` is entered, with its argument. -/
  | loadKeyPair (path : Bytes)
  /-- The call `ioutil.ReadFile` in `loadKeyPair`. -/
  | readKeyFile (path : Bytes)
  /-- The function `generateKeyPair` is entered. -/
  | generateKeyPair
  /-- The call `keyGen.Generate()`, with the algorithm of the generator. -/
  | keyGen (algorithm : Bytes)
  /-- The function `scanHostKey` is entered, with its argument. -/
  | scanHostKey (host : Bytes)
  /-- The call `ssh.ScanHostKey`, with the address it is given. -/
  | sshScan (address : Bytes)
  /-- The call `ioutil.ReadFile` of the CA file in `Generate`. -/
  | readCAFile (path : Bytes)
  /-- The call `makeSecret`, with the secret it builds and hands to `yaml.Marshal`. -/
  | makeSecret (secret : Secret)

/-- The event takes part in loading a key from a file. -/
def Event.isKeyLoad : Event → Bool
  | .loadKeyPair _ => true
  | .readKeyFile _ => true
  | _ => false

/-- The event takes part in generating a key. -/
def Event.isKeyGeneration : Event → Bool
  | .generateKeyPair => true
  | .keyGen _ => true
  | _ => false

/-- The event is a call of a key generator. -/
def Event.isGeneratorCall : Event → Bool
  | .keyGen _ => true
  | _ => false

/-- The event takes part in scanning the host key. -/
def Event.isHostKeyScan : Event → Bool
  | .scanHostKey _ => true
  | .sshScan _ => true
  | _ => false

/-- The event is the read of the CA file. -/
def Event.isCARead : Event → Bool
  | .readCAFile _ => true
  | _ => false

/-- The event is the construction of the secret. -/
def Event.isMakeSecret : Event → Bool
  | .makeSecret _ => true
  | _ => false

/-- The event marks the entry into one of the three arms of the mode switch of
`Generate`. -/
def Event.isModeBranch : Event → Bool
  | .noop => true
  | .loadKeyPair _ => true
  | .generateKeyPair => true
  | _ => false

/-! ## The functions of `deploysecret.go` -/

section Source

variable {Signer PublicKey Curve : Type}

/-- The function `makeSecret` of the source. -/
def makeSecret (keypair : Option KeyPair) (hostKey : Option Bytes) (caFile : Option Bytes)
    (options : Options Curve) : Secret :=
  let secret : Secret :=
    { Name := options.Name, Namespace := options.Namespace, StringData := fun _ => none }
  let secret :=
    if options.Username ≠ [] ∨ options.Password ≠ [] then
      (secret.set UsernameSecretKey options.Username).set PasswordSecretKey options.Password
    else secret
  let secret :=
    match caFile with
    | some ca => secret.set CAFileSecretKey ca
    | none => secret
  let secret :=
    match keypair, hostKey with
    | some kp, some hk =>
      ((secret.set PrivateKeySecretKey kp.PrivateKey).set PublicKeySecretKey
        kp.PublicKey).set KnownHostsSecretKey hk
    | _, _ => secret
  secret

/-- The function `loadKeyPair` of the source. -/
def loadKeyPair (env : Env Signer PublicKey Curve) (path : Bytes) :
    Run Event (Option KeyPair) := do
  emit (Event.loadKeyPair path)
  emit (Event.readKeyFile path)
  match env.readFile path with
  | .error err => fail (errorfW (lit "failed to open private key file: ") err)
  | .ok b =>
    match env.pemDecode b with
    | none => fail (.plain (lit "failed to decode PEM block"))
    | some blockBytes =>
      match env.parsePrivateKey blockBytes with
      | .error err => fail err
      | .ok ppk =>
        pure (some
          { PublicKey := env.marshalAuthorizedKey (env.publicKey ppk), PrivateKey := b })

/-- The function `generateKeyPair` of the source. The value `keyGen` stands for the result
of `keyGen.Generate()`, which is called after the switch. -/
def generateKeyPair (env : Env Signer PublicKey Curve) (options : Options Curve) :
    Run Event (Option KeyPair) := do
  emit Event.generateKeyPair
  let keyGen : Except GoError (Option KeyPair) ←
    (if options.PrivateKeyAlgorithm = env.RSAPrivateKeyAlgorithm then
      pure (env.rsaGenerate options.RSAKeyBits)
    else if options.PrivateKeyAlgorithm = env.ECDSAPrivateKeyAlgorithm then
      pure (env.ecdsaGenerate options.ECDSACurve)
    else if options.PrivateKeyAlgorithm = env.Ed25519PrivateKeyAlgorithm then
      pure env.ed25519Generate
    else
      fail (.plain (lit "unsupported public key algorithm: " ++ options.PrivateKeyAlgorithm)))
  emit (Event.keyGen options.PrivateKeyAlgorithm)
  match keyGen with
  | .error err => fail (errorfW (lit "key pair generation failed, error: ") err)
  | .ok pair => pure pair

/-- The address `scanHostKey` hands to the scan (the first three lines of its body):
`host` when `net.SplitHostPort(host)` returns no error, and otherwise
`fmt.Sprintf("%s:%d", host, defaultSSHPort)`. -/
def scanAddress (host : Bytes) : Bytes :=
  match SplitHostPort host with
  | .error _ => host ++ lit ":" ++ lit (Nat.repr defaultSSHPort)
  | .ok _ => host

/-- The function `scanHostKey` of the source. -/
def scanHostKey (env : Env Signer PublicKey Curve) (host : Bytes) :
    Run Event (Option Bytes) := do
  emit (Event.scanHostKey host)
  let host := scanAddress host
  emit (Event.sshScan host)
  match env.sshScanHostKey host with
  | .error err =>
    fail (.wrap (lit "SSH key scan for host " ++ host ++ lit " failed, error: " ++ err.Error)
      err)
  | .ok hostKey => pure hostKey

/-- The function `Generate` of the source. -/
def Generate (env : Env Signer PublicKey Curve) (options : Options Curve) :
    Run Event Manifest := do
  let keypair : Option KeyPair ←
    (if options.Username ≠ [] ∨ options.Password ≠ [] then do
      emit Event.noop
      pure none
    else if options.PrivateKeyPath ≠ [] then
      loadKeyPair env options.PrivateKeyPath
    else if options.PrivateKeyAlgorithm ≠ [] then
      generateKeyPair env options
    else
      pure none)
  let hostKey : Option Bytes ←
    (match keypair with
    | some _ => scanHostKey env options.SSHHostname
    | none => pure none)
  let caFile : Option Bytes ←
    (if options.CAFilePath ≠ [] then do
      emit (Event.readCAFile options.CAFilePath)
      match env.readFile options.CAFilePath with
      | .error err => fail (errorfW (lit "failed to read CA file: ") err)
      | .ok ca => pure (some ca)
    else
      pure none)
  let secret := makeSecret keypair hostKey caFile options
  emit (Event.makeSecret secret)
  match env.yamlMarshal secret with
  | .error err => fail err
  | .ok b =>
    pure
      { Path := Join [options.TargetPath, options.Namespace, options.ManifestFile]
        Content := lit "---\n" ++ resourceToString b }

end Source

/-! ## The four steps of `Generate` -/

section Steps

variable {Signer PublicKey Curve : Type}

/-- The mode switch of `Generate`: the statement `switch` of its body. -/
def keyStage (env : Env Signer PublicKey Curve) (options : Options Curve) :
    Run Event (Option KeyPair) :=
  if options.Username ≠ [] ∨ options.Password ≠ [] then do
    emit Event.noop
    pure none
  else if options.PrivateKeyPath ≠ [] then
    loadKeyPair env options.PrivateKeyPath
  else if options.PrivateKeyAlgorithm ≠ [] then
    generateKeyPair env options
  else
    pure none

/-- The host-key step of `Generate`: the statement `if keypair != nil`. -/
def scanStage (env : Env Signer PublicKey Curve) (options : Options Curve)
    (keypair : Option KeyPair) : Run Event (Option Bytes) :=
  match keypair with
  | some _ => scanHostKey env options.SSHHostname
  | none => pure none

/-- The CA step of `Generate`: the statement `if options.CAFilePath != ""`. -/
def caStage (env : Env Signer PublicKey Curve) (options : Options Curve) :
    Run Event (Option Bytes) :=
  if options.CAFilePath ≠ [] then do
    emit (Event.readCAFile options.CAFilePath)
    match env.readFile options.CAFilePath with
    | .error err => fail (errorfW (lit "failed to read CA file: ") err)
    | .ok ca => pure (some ca)
  else
    pure none

/-- The end of `Generate`, from the call of `makeSecret` on. -/
def marshalStage (env : Env Signer PublicKey Curve) (options : Options Curve)
    (keypair : Option KeyPair) (hostKey caFile : Option Bytes) : Run Event Manifest := do
  let secret := makeSecret keypair hostKey caFile options
  emit (Event.makeSecret secret)
  match env.yamlMarshal secret with
  | .error err => fail err
  | .ok b =>
    pure
      { Path := Join [options.TargetPath, options.Namespace, options.ManifestFile]
        Content := lit "---\n" ++ resourceToString b }

end Steps

/-! ## Notions used in the statements -/

/-- The byte `\n`. -/
def newline : UInt8 := 10

/-- The text whose lines are `ls`, each one terminated by a newline. -/
def unlines (ls : List Bytes) : Bytes := ls.flatMap fun l => l ++ [newline]

/-- The line `  creationTimestamp: null`, without its newline. -/
def creationTimestampLine : Bytes := lit "  creationTimestamp: null"

/-- The line `status: {}`, without its newline. -/
def statusLine : Bytes := lit "status: \x7b\x7d"

/-- The address carries a port: `net.SplitHostPort` splits it into a host and a port, which
is the test `scanHostKey` itself applies to its argument. -/
def hasPort (address : Bytes) : Bool :=
  match SplitHostPort address with
  | .ok _ => true
  | .error _ => false

/-- A path element that `path.Clean` copies as it is: a non-empty name without `/`, other
than `.` and `..`. -/
def IsFileName (e : Bytes) : Prop := e ≠ [] ∧ slash ∉ e ∧ e ≠ [dot] ∧ e ≠ [dot, dot]

instance (e : Bytes) : Decidable (IsFileName e) := by
  unfold IsFileName
  infer_instance

/-! ## A concrete environment, for evaluation -/

/-- A small marshaller used to evaluate the definitions: the name, the namespace and the
values of the six keys, one per line, after the `creationTimestamp` line that the real
marshaller writes. -/
def demoMarshal (secret : Secret) : Bytes :=
  lit "metadata:\n  creationTimestamp: null\n  name: " ++ secret.Name ++
    lit "\n  namespace: " ++ secret.Namespace ++ lit "\nstringData:\n" ++
    ([CAFileSecretKey, PrivateKeySecretKey, PublicKeySecretKey, KnownHostsSecretKey,
        PasswordSecretKey, UsernameSecretKey].flatMap fun key =>
      match secret.StringData key with
      | some value => lit "  " ++ key ++ lit ": " ++ value ++ lit "\n"
      | none => [])

/-- The contents of the key file of the demo environment: a PEM block followed by a
comment, so that the file is more than the block. -/
def demoKeyFile : Bytes := lit "-----BEGIN KEY-----\nS0VZ\n-----END KEY-----\ncomment\n"

/-- An environment used to evaluate the definitions: the file `id_key` holds a key that
decodes and parses, the file `ca.crt` a certificate, no other file exists; the three
generators return fixed pairs; the host `github.com:22` answers the scan, no other does. -/
def demoEnv : Env Bytes Bytes Bytes where
  RSAPrivateKeyAlgorithm := lit "rsa"
  ECDSAPrivateKeyAlgorithm := lit "ecdsa"
  Ed25519PrivateKeyAlgorithm := lit "ed25519"
  readFile := fun path =>
    if path = lit "id_key" then .ok demoKeyFile
    else if path = lit "ca.crt" then .ok (lit "CERT")
    else .error (.plain (lit "open " ++ path ++ lit ": no such file or directory"))
  pemDecode := fun b =>
    if lit "-----BEGIN KEY-----\n" <+: b then some (lit "KEY") else none
  parsePrivateKey := fun pemBytes =>
    if pemBytes = lit "KEY" then .ok (lit "signer")
    else .error (.plain (lit "ssh: no key found"))
  publicKey := fun signer => signer ++ lit ".public"
  marshalAuthorizedKey := fun key => lit "ssh-test " ++ key
  rsaGenerate := fun _ => .ok (some { PublicKey := lit "rsa-pub", PrivateKey := lit "rsa-priv" })
  ecdsaGenerate := fun _ =>
    .ok (some { PublicKey := lit "ecdsa-pub", PrivateKey := lit "ecdsa-priv" })
  ed25519Generate := .ok (some { PublicKey := lit "ed-pub", PrivateKey := lit "ed-priv" })
  sshScanHostKey := fun address =>
    if address = lit "github.com:22" then .ok (some (lit "github.com ssh-test HOSTKEY"))
    else .error (.plain (lit "dial tcp: lookup failed"))
  yamlMarshal := fun secret => .ok (demoMarshal secret)

/-- The key pair that `loadKeyPair` returns for the key file of the demo environment. -/
def demoKeyPair : KeyPair :=
  { PublicKey := lit "ssh-test signer.public", PrivateKey := demoKeyFile }

/-- The manifest that `Generate` returns in the demo environment for a key path only. -/
def demoManifest : Manifest :=
  { Path := lit "out/flux-system/secret.yaml"
    Content := lit "---\nmetadata:\n  name: flux-system\n  namespace: flux-system\nstringData:\n  identity: -----BEGIN KEY-----\nS0VZ\n-----END KEY-----\ncomment\n\n  identity.pub: ssh-test signer.public\n  known_hosts: github.com ssh-test HOSTKEY\n" }

/-- The demo environment with a marshaller that returns an error. -/
def failingMarshalEnv : Env Bytes Bytes Bytes :=
  { demoEnv with yamlMarshal := fun _ => .error (.plain (lit "yaml: marshal failed")) }

/-- The options with every mode field empty, for the Secret `flux-system/flux-system`
written to `out/flux-system/secret.yaml`. -/
def demoOptions : Options Bytes where
  Name := lit "flux-system"
  Namespace := lit "flux-system"
  SSHHostname := lit "github.com"
  PrivateKeyAlgorithm := []
  RSAKeyBits := 2048
  ECDSACurve := lit "p384"
  PrivateKeyPath := []
  Username := []
  Password := []
  CAFilePath := []
  TargetPath := lit "out"
  ManifestFile := lit "secret.yaml"

/-- Options with a user name and a password, and with a key path and a CA file as well. -/
def passwordOptions : Options Bytes :=
  { demoOptions with
    Username := lit "git", Password := lit "secret", PrivateKeyPath := lit "id_key",
    CAFilePath := lit "ca.crt" }

/-- The manifest that `Generate` returns in the demo environment for `passwordOptions`. -/
def passwordManifest : Manifest :=
  { Path := lit "out/flux-system/secret.yaml"
    Content := lit "---\nmetadata:\n  name: flux-system\n  namespace: flux-system\nstringData:\n  caFile: CERT\n  password: secret\n  username: git\n" }

/-- Options with a key path only. -/
def keyFileOptions : Options Bytes :=
  { demoOptions with PrivateKeyPath := lit "id_key" }

/-- Options with a CA file only: none of the four mode fields is set. -/
def caOnlyOptions : Options Bytes :=
  { demoOptions with CAFilePath := lit "ca.crt" }

/-- Options with an algorithm that is none of the three of the demo environment. -/
def unsupportedOptions : Options Bytes :=
  { demoOptions with PrivateKeyAlgorithm := lit "dsa" }

/-- Options with a key path and a host that does not answer the scan. -/
def unreachableOptions : Options Bytes :=
  { demoOptions with PrivateKeyPath := lit "id_key", SSHHostname := lit "example.org" }

/-- The lines of a serialized secret. -/
def demoLines : List Bytes :=
  [lit "metadata:", lit "  creationTimestamp: null", lit "  name: flux-system",
    lit "  namespace: flux-system", lit "stringData:", lit "  password: secret",
    lit "  username: git", lit "status: \x7b\x7d"]

/-- The lines of a text in which the text of the status line ends an indented line. -/
def indentedLines : List Bytes :=
  [lit "stringData:", lit "  caFile: |", lit "    status: \x7b\x7d", lit "    end"]

/-- A serialized secret whose password is the text `status: {}`, as the marshaller writes
it (a string with a colon is quoted). -/
def quotedStatusYaml : Bytes :=
  lit "metadata:\n  creationTimestamp: null\n  name: flux-system\n  namespace: flux-system\nstringData:\n  password: 'status: \x7b\x7d'\n  username: git\n"

/-! ## Lemmas on runs -/

section Proofs

variable {Signer PublicKey Curve : Type}

theorem Run.bind_res_ok {E α β : Type} (m : Run E α) (f : α → Run E β) (x : β) :
    (m >>= f).res = .ok x ↔ ∃ a, m.res = .ok a ∧ (f a).res = .ok x := by
  show (Run.bind m f).res = .ok x ↔ _
  unfold Run.bind
  cases hm : m.res with
  | error err => simp
  | ok a => simp

theorem Run.bind_of_ok {E α β : Type} (m : Run E α) (f : α → Run E β) (a : α)
    (hm : m.res = .ok a) :
    (m >>= f).log = m.log ++ (f a).log ∧ (m >>= f).res = (f a).res := by
  show (Run.bind m f).log = _ ∧ (Run.bind m f).res = _
  unfold Run.bind
  simp [hm]

theorem Run.bind_of_error {E α β : Type} (m : Run E α) (f : α → Run E β) (err : GoError)
    (hm : m.res = .error err) :
    (m >>= f).log = m.log ∧ (m >>= f).res = .error err := by
  show (Run.bind m f).log = _ ∧ (Run.bind m f).res = _
  unfold Run.bind
  simp [hm]

/-- The events of a sequence are events of its first part or of its second part. -/
theorem Run.mem_bind_log {E α β : Type} (m : Run E α) (f : α → Run E β) (e : E)
    (he : e ∈ (m >>= f).log) : e ∈ m.log ∨ ∃ a, m.res = .ok a ∧ e ∈ (f a).log := by
  cases hm : m.res with
  | error err =>
    rw [(Run.bind_of_error m f err hm).1] at he
    exact Or.inl he
  | ok a =>
    rw [(Run.bind_of_ok m f a hm).1, List.mem_append] at he
    exact he.imp id fun h => ⟨a, rfl, h⟩

/-- The body of `Generate` is the sequence of its four steps. -/
theorem Generate_eq_stages (env : Env Signer PublicKey Curve) (options : Options Curve) :
    Generate env options =
      (keyStage env options >>= fun keypair =>
        scanStage env options keypair >>= fun hostKey =>
          caStage env options >>= fun caFile =>
            marshalStage env options keypair hostKey caFile) := rfl

/-- The log of `loadKeyPair` does not depend on its result. -/
theorem loadKeyPair_log (env : Env Signer PublicKey Curve) (path : Bytes) :
    (loadKeyPair env path).log = [Event.loadKeyPair path, Event.readKeyFile path] := by
  unfold loadKeyPair
  cases h1 : env.readFile path with
  | error err => simp [bind, Run.bind, emit, fail]
  | ok b =>
    cases h2 : env.pemDecode b with
    | none => simp [h2, bind, Run.bind, emit, fail]
    | some blockBytes =>
      cases h3 : env.parsePrivateKey blockBytes with
      | error err => simp [h2, h3, bind, Run.bind, emit, fail]
      | ok ppk => simp [h2, h3, bind, Run.bind, emit, pure]

/-- The result of `loadKeyPair` on a file that reads, decodes and parses. -/
theorem loadKeyPair_res_ok (env : Env Signer PublicKey Curve) (path b blockBytes : Bytes)
    (ppk : Signer) (h1 : env.readFile path = .ok b) (h2 : env.pemDecode b = some blockBytes)
    (h3 : env.parsePrivateKey blockBytes = .ok ppk) :
    (loadKeyPair env path).res =
      .ok (some { PublicKey := env.marshalAuthorizedKey (env.publicKey ppk), PrivateKey := b }) := by
  simp [loadKeyPair, h1, h2, h3, bind, Run.bind, emit, pure]

/-- Every event of `generateKeyPair` belongs to key generation, and exactly the first one
marks the entry into the function. -/
theorem generateKeyPair_log (env : Env Signer PublicKey Curve) (options : Options Curve) :
    (generateKeyPair env options).log = [Event.generateKeyPair] ∨
    (generateKeyPair env options).log =
      [Event.generateKeyPair, Event.keyGen options.PrivateKeyAlgorithm] := by
  unfold generateKeyPair
  by_cases h1 : options.PrivateKeyAlgorithm = env.RSAPrivateKeyAlgorithm
  · rw [if_pos h1]
    cases h : env.rsaGenerate options.RSAKeyBits <;>
      simp [h, bind, Run.bind, emit, fail, pure]
  by_cases h2 : options.PrivateKeyAlgorithm = env.ECDSAPrivateKeyAlgorithm
  · rw [if_neg h1, if_pos h2]
    cases h : env.ecdsaGenerate options.ECDSACurve <;>
      simp [h, bind, Run.bind, emit, fail, pure]
  by_cases h3 : options.PrivateKeyAlgorithm = env.Ed25519PrivateKeyAlgorithm
  · rw [if_neg h1, if_neg h2, if_pos h3]
    cases h : env.ed25519Generate <;>
      simp [h, bind, Run.bind, emit, fail, pure]
  · rw [if_neg h1, if_neg h2, if_neg h3]
    simp [bind, Run.bind, emit, fail]

/-- The run of `generateKeyPair` on an algorithm that is none of the three constants. -/
theorem generateKeyPair_unsupported (env : Env Signer PublicKey Curve)
    (options : Options Curve)
    (h1 : options.PrivateKeyAlgorithm ≠ env.RSAPrivateKeyAlgorithm)
    (h2 : options.PrivateKeyAlgorithm ≠ env.ECDSAPrivateKeyAlgorithm)
    (h3 : options.PrivateKeyAlgorithm ≠ env.Ed25519PrivateKeyAlgorithm) :
    (generateKeyPair env options).log = [Event.generateKeyPair] ∧
    (generateKeyPair env options).res =
      .error (.plain (lit "unsupported public key algorithm: " ++
        options.PrivateKeyAlgorithm)) := by
  simp [generateKeyPair, h1, h2, h3, bind, Run.bind, emit, fail]

/-- The log of `scanHostKey` does not depend on its result. -/
theorem scanHostKey_log (env : Env Signer PublicKey Curve) (host : Bytes) :
    (scanHostKey env host).log = [Event.scanHostKey host, Event.sshScan (scanAddress host)] := by
  unfold scanHostKey
  cases h : env.sshScanHostKey (scanAddress host) <;> simp [h, bind, Run.bind, emit, fail, pure]

/-- The result of `scanHostKey`: the result of the scan, an error being wrapped. -/
theorem scanHostKey_res (env : Env Signer PublicKey Curve) (host : Bytes) :
    (scanHostKey env host).res =
      match env.sshScanHostKey (scanAddress host) with
      | .error err =>
        .error (.wrap (lit "SSH key scan for host " ++ scanAddress host ++
          lit " failed, error: " ++ err.Error) err)
      | .ok hostKey => .ok hostKey := by
  unfold scanHostKey
  cases h : env.sshScanHostKey (scanAddress host) <;> simp [h, bind, Run.bind, emit, fail, pure]

/-- The log of the CA step. -/
theorem caStage_log (env : Env Signer PublicKey Curve) (options : Options Curve) :
    (caStage env options).log =
      if options.CAFilePath ≠ [] then [Event.readCAFile options.CAFilePath] else [] := by
  unfold caStage
  by_cases hca : options.CAFilePath = []
  · simp [hca, pure]
  · cases h : env.readFile options.CAFilePath <;> simp [hca, h, bind, Run.bind, emit, fail, pure]

/-- The result of the CA step. -/
theorem caStage_res (env : Env Signer PublicKey Curve) (options : Options Curve) :
    (caStage env options).res =
      if options.CAFilePath ≠ [] then
        match env.readFile options.CAFilePath with
        | .error err => .error (errorfW (lit "failed to read CA file: ") err)
        | .ok ca => .ok (some ca)
      else .ok none := by
  unfold caStage
  by_cases hca : options.CAFilePath = []
  · simp [hca, pure]
  · cases h : env.readFile options.CAFilePath <;> simp [hca, h, bind, Run.bind, emit, fail, pure]

/-- The log of the last step: the secret handed to the marshaller. -/
theorem marshalStage_log (env : Env Signer PublicKey Curve) (options : Options Curve)
    (keypair : Option KeyPair) (hostKey caFile : Option Bytes) :
    (marshalStage env options keypair hostKey caFile).log =
      [Event.makeSecret (makeSecret keypair hostKey caFile options)] := by
  unfold marshalStage
  cases h : env.yamlMarshal (makeSecret keypair hostKey caFile options) <;>
    simp [h, bind, Run.bind, emit, fail, pure]

/-- The result of the last step. -/
theorem marshalStage_res (env : Env Signer PublicKey Curve) (options : Options Curve)
    (keypair : Option KeyPair) (hostKey caFile : Option Bytes) :
    (marshalStage env options keypair hostKey caFile).res =
      match env.yamlMarshal (makeSecret keypair hostKey caFile options) with
      | .error err => .error err
      | .ok b =>
        .ok
          { Path := Join [options.TargetPath, options.Namespace, options.ManifestFile]
            Content := lit "---\n" ++ resourceToString b } := by
  unfold marshalStage
  cases h : env.yamlMarshal (makeSecret keypair hostKey caFile options) <;>
    simp [h, bind, Run.bind, emit, fail, pure]

/-- A successful run of `Generate`: the values of its three variables, the secret built from
them, the bytes the marshaller returned for it, and the manifest. -/
theorem Generate_ok_inv (env : Env Signer PublicKey Curve) (options : Options Curve)
    (m : Manifest) (h : (Generate env options).res = .ok m) :
    ∃ keypair hostKey caFile b,
      (keyStage env options).res = .ok keypair ∧
      (scanStage env options keypair).res = .ok hostKey ∧
      (caStage env options).res = .ok caFile ∧
      env.yamlMarshal (makeSecret keypair hostKey caFile options) = .ok b ∧
      (Generate env options).log =
        (keyStage env options).log ++ ((scanStage env options keypair).log ++
          ((caStage env options).log ++
            [Event.makeSecret (makeSecret keypair hostKey caFile options)])) ∧
      m = { Path := Join [options.TargetPath, options.Namespace, options.ManifestFile]
            Content := lit "---\n" ++ resourceToString b } := by
  rw [Generate_eq_stages] at h ⊢
  obtain ⟨keypair, hk, h⟩ := (Run.bind_res_ok _ _ _).1 h
  obtain ⟨hostKey, hh, h⟩ := (Run.bind_res_ok _ _ _).1 h
  obtain ⟨caFile, hc, h⟩ := (Run.bind_res_ok _ _ _).1 h
  rw [marshalStage_res] at h
  cases hy : env.yamlMarshal (makeSecret keypair hostKey caFile options) with
  | error err => simp [hy] at h
  | ok b =>
    simp only [hy, Except.ok.injEq] at h
    refine ⟨keypair, hostKey, caFile, b, hk, hh, hc, hy, ?_, h.symm⟩
    rw [(Run.bind_of_ok _ _ _ hk).1, (Run.bind_of_ok _ _ _ hh).1, (Run.bind_of_ok _ _ _ hc).1,
      marshalStage_log]

/-- The mode switch when a user name or a password is given. -/
theorem keyStage_noop (env : Env Signer PublicKey Curve) (options : Options Curve)
    (h : options.Username ≠ [] ∨ options.Password ≠ []) :
    (keyStage env options).log = [Event.noop] ∧ (keyStage env options).res = .ok none := by
  unfold keyStage
  rw [if_pos h]
  simp [bind, Run.bind, emit, pure]

/-- The mode switch when neither a user name nor a password, but a key path is given. -/
theorem keyStage_load (env : Env Signer PublicKey Curve) (options : Options Curve)
    (hu : options.Username = []) (hp : options.Password = [])
    (hpath : options.PrivateKeyPath ≠ []) :
    keyStage env options = loadKeyPair env options.PrivateKeyPath := by
  unfold keyStage
  rw [if_neg (by simp [hu, hp]), if_pos hpath]

/-- The mode switch when only an algorithm is given. -/
theorem keyStage_generate (env : Env Signer PublicKey Curve) (options : Options Curve)
    (hu : options.Username = []) (hp : options.Password = [])
    (hpath : options.PrivateKeyPath = []) (halg : options.PrivateKeyAlgorithm ≠ []) :
    keyStage env options = generateKeyPair env options := by
  unfold keyStage
  rw [if_neg (by simp [hu, hp]), if_neg (by simp [hpath]), if_pos halg]

/-- The mode switch when none of the four fields is given: no arm is taken. -/
theorem keyStage_none (env : Env Signer PublicKey Curve) (options : Options Curve)
    (hu : options.Username = []) (hp : options.Password = [])
    (hpath : options.PrivateKeyPath = []) (halg : options.PrivateKeyAlgorithm = []) :
    (keyStage env options).log = [] ∧ (keyStage env options).res = .ok none := by
  unfold keyStage
  rw [if_neg (by simp [hu, hp]), if_neg (by simp [hpath]), if_neg (by simp [halg])]
  simp [pure]

/-- The address handed to the scan starts with the host name. -/
theorem host_prefix_scanAddress (host : Bytes) : host <+: scanAddress host := by
  unfold scanAddress
  cases SplitHostPort host with
  | error why => simp [List.append_assoc]
  | ok parts => simp

/-- The log of a sequence is the log of its first part followed by events of its second
part. -/
theorem Run.bind_log_split {E α β : Type} (m : Run E α) (f : α → Run E β) :
    ∃ t, (m >>= f).log = m.log ++ t ∧ ∀ e ∈ t, ∃ a, m.res = .ok a ∧ e ∈ (f a).log := by
  cases hm : m.res with
  | error err => exact ⟨[], by simp [(Run.bind_of_error m f err hm).1], by simp⟩
  | ok a => exact ⟨(f a).log, (Run.bind_of_ok m f a hm).1, fun e he => ⟨a, rfl, he⟩⟩

/-- The steps of `Generate` after the mode switch enter no arm of the switch. -/
theorem afterKey_not_modeBranch (env : Env Signer PublicKey Curve) (options : Options Curve)
    (keypair : Option KeyPair) (e : Event)
    (he : e ∈ (scanStage env options keypair >>= fun hostKey =>
      caStage env options >>= fun caFile =>
        marshalStage env options keypair hostKey caFile).log) :
    e.isModeBranch = false := by
  rcases Run.mem_bind_log _ _ e he with he | ⟨hostKey, -, he⟩
  · cases keypair with
    | none => simp [scanStage, pure] at he
    | some kp =>
      have : (scanStage env options (some kp)).log = _ := scanHostKey_log env options.SSHHostname
      rw [this] at he
      simp at he
      rcases he with rfl | rfl <;> rfl
  · rcases Run.mem_bind_log _ _ e he with he | ⟨caFile, -, he⟩
    · rw [caStage_log] at he
      split at he
      · simp at he
        subst he
        rfl
      · simp at he
    · rw [marshalStage_log] at he
      simp at he
      subst he
      rfl

/-- The entries into an arm of the mode switch, in a run of `Generate`, are those of the
mode switch itself. -/
theorem Generate_modeBranch (env : Env Signer PublicKey Curve) (options : Options Curve) :
    (Generate env options).log.filter Event.isModeBranch =
      (keyStage env options).log.filter Event.isModeBranch := by
  rw [Generate_eq_stages]
  obtain ⟨t, ht, hmem⟩ := Run.bind_log_split (keyStage env options)
    (fun keypair => scanStage env options keypair >>= fun hostKey =>
      caStage env options >>= fun caFile => marshalStage env options keypair hostKey caFile)
  rw [ht, List.filter_append]
  have : t.filter Event.isModeBranch = [] := by
    rw [List.filter_eq_nil_iff]
    intro e he
    obtain ⟨keypair, -, hk⟩ := hmem e he
    simp [afterKey_not_modeBranch env options keypair e hk]
  rw [this, List.append_nil]

/-- The six keys of the secret are pairwise different. -/
theorem secretKeys_nodup :
    [UsernameSecretKey, PasswordSecretKey, CAFileSecretKey, PrivateKeySecretKey,
      PublicKeySecretKey, KnownHostsSecretKey].Nodup := by decide

/-- The value `makeSecret` binds to each of the six keys, and to any other key. -/
theorem makeSecret_lookup (keypair : Option KeyPair) (hostKey caFile : Option Bytes)
    (options : Options Curve) :
    (makeSecret keypair hostKey caFile options).Name = options.Name ∧
    (makeSecret keypair hostKey caFile options).Namespace = options.Namespace ∧
    (makeSecret keypair hostKey caFile options).StringData UsernameSecretKey =
      (if options.Username ≠ [] ∨ options.Password ≠ [] then some options.Username
        else none) ∧
    (makeSecret keypair hostKey caFile options).StringData PasswordSecretKey =
      (if options.Username ≠ [] ∨ options.Password ≠ [] then some options.Password
        else none) ∧
    (makeSecret keypair hostKey caFile options).StringData CAFileSecretKey = caFile ∧
    (makeSecret keypair hostKey caFile options).StringData PrivateKeySecretKey =
      (match keypair, hostKey with
        | some kp, some _ => some kp.PrivateKey
        | _, _ => none) ∧
    (makeSecret keypair hostKey caFile options).StringData PublicKeySecretKey =
      (match keypair, hostKey with
        | some kp, some _ => some kp.PublicKey
        | _, _ => none) ∧
    (makeSecret keypair hostKey caFile options).StringData KnownHostsSecretKey =
      (match keypair, hostKey with
        | some _, some hk => some hk
        | _, _ => none) ∧
    ∀ k, k ∉ [UsernameSecretKey, PasswordSecretKey, CAFileSecretKey, PrivateKeySecretKey,
        PublicKeySecretKey, KnownHostsSecretKey] →
      (makeSecret keypair hostKey caFile options).StringData k = none := by
  have hn := secretKeys_nodup
  simp only [List.nodup_cons, List.mem_cons, List.mem_singleton, not_or, List.not_mem_nil,
    not_false_eq_true, List.nodup_nil, and_true] at hn
  obtain ⟨⟨h12, h13, h14, h15, h16⟩, ⟨h23, h24, h25, h26⟩, ⟨h34, h35, h36⟩, ⟨h45, h46⟩, h56⟩ :=
    hn
  unfold makeSecret
  cases keypair <;> cases hostKey <;> cases caFile <;>
    by_cases hu : options.Username ≠ [] ∨ options.Password ≠ [] <;>
    simp +decide [Secret.set, hu] <;>
    intro k k1 k2 k3 k4 k5 k6 <;> simp [*]

/-! ## Lemmas on `resourceToString` -/

theorem unlines_cons (l : Bytes) (ls : List Bytes) :
    unlines (l :: ls) = l ++ newline :: unlines ls := by
  simp [unlines]

theorem replaceFirst_at_head (old new s : Bytes) (hs : s ≠ []) (h : old <+: s) :
    replaceFirst old new s = new ++ s.drop old.length := by
  cases s with
  | nil => exact absurd rfl hs
  | cons c cs => simp [replaceFirst, h]

theorem replaceFirst_cons_skip (old new : Bytes) (c : UInt8) (cs : Bytes)
    (h : ¬ old <+: c :: cs) :
    replaceFirst old new (c :: cs) = c :: replaceFirst old new cs := by
  simp [replaceFirst, h]

/-- Nothing is replaced in a text in which `old` does not occur. -/
theorem replaceFirst_absent (old new s : Bytes) (h : ¬ old <:+: s) :
    replaceFirst old new s = s := by
  induction s with
  | nil => rfl
  | cons c cs ih =>
    rw [List.infix_cons_iff, not_or] at h
    rw [replaceFirst_cons_skip old new c cs h.1, ih h.2]

/-- Two texts that agree, each cut at its first newline, have the same first line and the
same rest. -/
theorem line_split_unique (u v s t : Bytes) (hu : newline ∉ u) (hv : newline ∉ v)
    (h : u ++ newline :: s = v ++ newline :: t) : u = v ∧ s = t := by
  rcases List.append_eq_append_iff.1 h with ⟨a, rfl, ha⟩ | ⟨a, rfl, ha⟩
  · cases a with
    | nil => simpa using ha
    | cons x a =>
      simp at ha
      exact absurd (by simp [← ha.1]) hv
  · cases a with
    | nil =>
      simp at ha
      simp [ha]
    | cons x a =>
      simp at ha
      exact absurd (by simp [← ha.1]) hu

/-- The pattern `line` followed by a newline does not start a text whose first line is
another one. -/
theorem not_prefix_of_ne_line (line b rest : Bytes) (hline : newline ∉ line)
    (hb : newline ∉ b) (hne : b ≠ line) :
    ¬ (line ++ [newline]) <+: (b ++ newline :: rest) := by
  rintro ⟨t, ht⟩
  rw [List.append_assoc, List.singleton_append] at ht
  exact hne (line_split_unique line b t rest hline hb ht).1.symm

/-- A line none of whose suffixes is `line` is left as it is, and the search goes on after
it. -/
theorem replaceFirst_skip_line (line new l rest : Bytes) (hline : newline ∉ line)
    (hl : newline ∉ l) (hsuf : ∀ b, b <:+ l → b ≠ line) :
    replaceFirst (line ++ [newline]) new (l ++ newline :: rest) =
      l ++ newline :: replaceFirst (line ++ [newline]) new rest := by
  induction l with
  | nil =>
    have := not_prefix_of_ne_line line [] rest hline (by simp) (hsuf [] (List.suffix_refl _))
    simpa using replaceFirst_cons_skip _ new newline rest (by simpa using this)
  | cons c l ih =>
    have hnp := not_prefix_of_ne_line line (c :: l) rest hline hl (hsuf _ (List.suffix_refl _))
    rw [List.cons_append] at hnp
    rw [List.cons_append, replaceFirst_cons_skip _ new c _ hnp,
      ih (fun hm => hl (List.mem_cons_of_mem _ hm))
        (fun b hb => hsuf b (hb.trans (List.suffix_cons c l)))]
    rfl

/-- Removing the first occurrence of `line` followed by a newline, from a text in which
`line` ends no other line, removes the first line equal to `line`. -/
theorem replaceFirst_unlines (line : Bytes) (ls : List Bytes) (hline : newline ∉ line)
    (hls : ∀ l ∈ ls, newline ∉ l) (hsuf : ∀ l ∈ ls, line <:+ l → l = line) :
    replaceFirst (line ++ [newline]) [] (unlines ls) = unlines (ls.erase line) := by
  induction ls with
  | nil => rfl
  | cons l ls ih =>
    have ih := ih (fun x hx => hls x (List.mem_cons_of_mem _ hx))
      (fun x hx => hsuf x (List.mem_cons_of_mem _ hx))
    rw [unlines_cons]
    by_cases hl : l = line
    · subst hl
      rw [List.erase_cons_head, replaceFirst_at_head _ _ _ (by simp)
        ⟨unlines ls, by simp⟩]
      simp
    · rw [List.erase_cons_tail (by simpa using hl), unlines_cons,
        replaceFirst_skip_line line [] l _ hline (hls l (List.mem_cons_self _ _))
          (fun b hb hbl => hl (hsuf l (List.mem_cons_self _ _) (hbl ▸ hb))), ih]

theorem creationTimestamp_pattern :
    lit "  creationTimestamp: null\n" = creationTimestampLine ++ [newline] := by decide

theorem status_pattern : lit "status: \x7b\x7d\n" = statusLine ++ [newline] := by decide

/-- The function `resourceToString` on a text given by its lines, when no line other than
the two lines themselves ends with one of them. -/
theorem resourceToString_unlines (ls : List Bytes) (hls : ∀ l ∈ ls, newline ∉ l)
    (h1 : ∀ l ∈ ls, creationTimestampLine <:+ l → l = creationTimestampLine)
    (h2 : ∀ l ∈ ls, statusLine <:+ l → l = statusLine) :
    resourceToString (unlines ls) =
      unlines ((ls.erase creationTimestampLine).erase statusLine) := by
  unfold resourceToString
  simp only [creationTimestamp_pattern, status_pattern]
  show replaceFirst _ [] (replaceFirst _ [] _) = _
  rw [replaceFirst_unlines _ ls (by decide) hls h1,
    replaceFirst_unlines _ _ (by decide)
      (fun l hl => hls l (List.mem_of_mem_erase hl))
      (fun l hl => h2 l (List.mem_of_mem_erase hl))]

/-- An occurrence of a non-empty text without newline, in a line followed by a newline and
a rest, lies in the line or in the rest. -/
theorem infix_line_or_rest (sub l rest : Bytes) (hsub : sub ≠ []) (hnl : newline ∉ sub)
    (h : sub <:+: l ++ newline :: rest) : sub <:+: l ∨ sub <:+: rest := by
  induction l with
  | nil =>
    rw [List.nil_append, List.infix_cons_iff] at h
    rcases h with h | h
    · cases sub with
      | nil => exact absurd rfl hsub
      | cons x xs =>
        rw [List.cons_prefix_cons] at h
        exact absurd (by simp [h.1]) hnl
    · exact Or.inr h
  | cons c l ih =>
    rw [List.cons_append, List.infix_cons_iff] at h
    rcases h with ⟨t, ht⟩ | h
    · left
      rw [← List.cons_append] at ht
      rcases List.append_eq_append_iff.1 ht with ⟨a, ha, -⟩ | ⟨a, ha, hb⟩
      · exact ⟨[], a, by simp [ha]⟩
      · cases a with
        | nil => exact ⟨[], [], by simp [ha]⟩
        | cons x a =>
          simp at hb
          exact absurd (by simp [ha, ← hb.1]) hnl
    · exact (ih h).imp (fun h => h.trans (List.suffix_cons c l).isInfix) id

/-- An occurrence of a non-empty text without newline, in a text given by its lines, lies
in one of the lines. -/
theorem infix_unlines (sub : Bytes) (ls : List Bytes) (hsub : sub ≠ []) (hnl : newline ∉ sub)
    (h : sub <:+: unlines ls) : ∃ l ∈ ls, sub <:+: l := by
  induction ls with
  | nil =>
    have : sub = [] := by simpa [unlines] using h
    exact absurd this hsub
  | cons l ls ih =>
    rw [unlines_cons] at h
    rcases infix_line_or_rest sub l _ hsub hnl h with h | h
    · exact ⟨l, List.mem_cons_self _ _, h⟩
    · obtain ⟨x, hx, hxs⟩ := ih h
      exact ⟨x, List.mem_cons_of_mem _ hx, hxs⟩

/-! ## Lemmas on `net.SplitHostPort` -/

/-- The embedding of `net.SplitHostPort` on addresses of each shape: with a port, without
one, with an empty port, IPv6 with and without brackets, and misplaced brackets. -/
theorem SplitHostPort_examples :
    SplitHostPort (lit "github.com:22") = .ok (lit "github.com", lit "22") ∧
    SplitHostPort (lit "github.com") = .error (lit "missing port in address") ∧
    SplitHostPort (lit "github.com:") = .ok (lit "github.com", lit "") ∧
    SplitHostPort (lit "[::1]:22") = .ok (lit "::1", lit "22") ∧
    SplitHostPort (lit "[::1]") = .error (lit "missing port in address") ∧
    SplitHostPort (lit "::1") = .error (lit "too many colons in address") ∧
    SplitHostPort (lit "[a]b:22") = .error (lit "missing port in address") ∧
    SplitHostPort (lit "[a]:b:22") = .error (lit "too many colons in address") ∧
    SplitHostPort (lit "[a:22") = .error (lit "missing ']' in address") ∧
    SplitHostPort (lit "a[b:22") = .error (lit "unexpected '[' in address") ∧
    SplitHostPort (lit "a]b:22") = .error (lit "unexpected ']' in address") := by
  refine ⟨?_, ?_, ?_, ?_, ?_, ?_, ?_, ?_, ?_, ?_, ?_⟩ <;> decide

theorem indexByte_eq_none (c : UInt8) (s : Bytes) : indexByte c s = none ↔ c ∉ s := by
  induction s with
  | nil => simp [indexByte]
  | cons b bs ih =>
    unfold indexByte
    by_cases h : b = c
    · simp [h]
    · simp [h, ih, Ne.symm h]

theorem indexByte_isSome (c : UInt8) (s : Bytes) : (indexByte c s).isSome = true ↔ c ∈ s := by
  rw [← not_iff_not, ← indexByte_eq_none]
  cases indexByte c s <;> simp

/-- The first occurrence of `c` splits the text: no `c` before it. -/
theorem indexByte_eq_some (c : UInt8) (s : Bytes) (i : Nat) (h : indexByte c s = some i) :
    ∃ a b, s = a ++ c :: b ∧ a.length = i ∧ c ∉ a := by
  induction s generalizing i with
  | nil => simp [indexByte] at h
  | cons x xs ih =>
    unfold indexByte at h
    by_cases hx : x = c
    · simp [hx] at h
      exact ⟨[], xs, by simp [hx], by simp [h], by simp⟩
    · simp [hx] at h
      obtain ⟨j, hj, rfl⟩ := h
      obtain ⟨a, b, rfl, rfl, hc⟩ := ih j hj
      exact ⟨x :: a, b, by simp, by simp, by simp [hc, Ne.symm hx]⟩

theorem lastIndexByte_eq_none (c : UInt8) (s : Bytes) : lastIndexByte c s = none ↔ c ∉ s := by
  induction s with
  | nil => simp [lastIndexByte]
  | cons b bs ih =>
    unfold lastIndexByte
    cases hl : lastIndexByte c bs with
    | some i =>
      have : c ∈ bs := by
        by_contra hc
        rw [ih.2 hc] at hl
        cases hl
      simp [this]
    | none =>
      have := ih.1 hl
      by_cases h : b = c
      · simp [h]
      · simp [h, this, Ne.symm h]

/-- The last occurrence of `c`: the one after which there is no `c`. -/
theorem lastIndexByte_append (c : UInt8) (a b : Bytes) (hb : c ∉ b) :
    lastIndexByte c (a ++ c :: b) = some a.length := by
  induction a with
  | nil => simp [lastIndexByte, (lastIndexByte_eq_none c b).2 hb]
  | cons x xs ih =>
    rw [List.cons_append]
    unfold lastIndexByte
    rw [ih]
    simp

theorem indexByte_append (c : UInt8) (a b : Bytes) (ha : c ∉ a) :
    indexByte c (a ++ c :: b) = some a.length := by
  induction a with
  | nil => simp [indexByte]
  | cons x xs ih =>
    have hx : x ≠ c := fun h => ha (by simp [h])
    rw [List.cons_append]
    unfold indexByte
    rw [ih (fun h => ha (List.mem_cons_of_mem _ h))]
    simp [hx]

theorem port_suffix : lit ":" ++ lit (Nat.repr defaultSSHPort) = colon :: lit "22" := by decide

/-- A host name without colon or bracket, followed by `:22`, splits into the host name and
the port `22`. -/
theorem SplitHostPort_plain (host : Bytes) (h1 : colon ∉ host) (h2 : lbrack ∉ host)
    (h3 : rbrack ∉ host) : SplitHostPort (host ++ colon :: lit "22") = .ok (host, lit "22") := by
  have hhead : (host ++ colon :: lit "22").head? ≠ some lbrack := by
    cases host with
    | nil => decide
    | cons x xs =>
      intro h
      simp at h
      exact h2 (by simp [h])
  have hl : lbrack ∉ host ++ colon :: lit "22" := by
    simp only [List.mem_append, not_or]
    exact ⟨h2, by decide⟩
  have hr : rbrack ∉ host ++ colon :: lit "22" := by
    simp only [List.mem_append, not_or]
    exact ⟨h3, by decide⟩
  unfold SplitHostPort
  rw [lastIndexByte_append colon host (lit "22") (by decide)]
  simp only [if_neg hhead, List.take_left', List.drop_zero]
  rw [(indexByte_eq_none colon host).2 h1]
  simp [(indexByte_eq_none lbrack _).2 hl, (indexByte_eq_none rbrack _).2 hr]

/-- A bracketed host without inner bracket, followed by `:22`, splits into the text
between the brackets and the port `22`. -/
theorem SplitHostPort_bracketed (h : Bytes) (h2 : lbrack ∉ h) (h3 : rbrack ∉ h) :
    SplitHostPort (lbrack :: h ++ [rbrack] ++ colon :: lit "22") = .ok (h, lit "22") := by
  have hlast := lastIndexByte_append colon (lbrack :: h ++ [rbrack]) (lit "22") (by decide)
  have hidx : indexByte rbrack (lbrack :: h ++ [rbrack] ++ colon :: lit "22") =
      some (h.length + 1) := by
    have := indexByte_append rbrack (lbrack :: h) (colon :: lit "22")
      (by simp only [List.mem_cons, not_or]; exact ⟨by decide, h3⟩)
    simpa using this
  have hl : lbrack ∉ h ++ rbrack :: colon :: lit "22" := by
    simp only [List.mem_append, not_or]
    exact ⟨h2, by decide⟩
  unfold SplitHostPort
  rw [hlast, hidx]
  have hlen : (lbrack :: h ++ [rbrack] ++ colon :: lit "22").length = h.length + 5 := by
    simp [show (lit "22").length = 2 from by decide]
  have e1 : List.drop 1 (lbrack :: h ++ [rbrack] ++ colon :: lit "22") =
      h ++ rbrack :: colon :: lit "22" := by simp
  have e2 : List.drop (h.length + 1 + 1) (lbrack :: h ++ [rbrack] ++ colon :: lit "22") =
      colon :: lit "22" := by
    exact @List.drop_left' _ (lbrack :: h ++ [rbrack]) (colon :: lit "22") (h.length + 1 + 1)
      (by simp)
  have e3 : List.drop ((lbrack :: h ++ [rbrack]).length + 1)
      (lbrack :: h ++ [rbrack] ++ colon :: lit "22") = lit "22" := by
    simp
  have e4 : List.drop 1 (List.take (h.length + 1)
      (lbrack :: h ++ [rbrack] ++ colon :: lit "22")) = h := by
    have := @List.take_left' _ (lbrack :: h) (rbrack :: colon :: lit "22") (h.length + 1)
      (by simp)
    have e : lbrack :: h ++ [rbrack] ++ colon :: lit "22" =
        (lbrack :: h) ++ rbrack :: colon :: lit "22" := by simp
    rw [e, this]
    rfl
  have hhead : (lbrack :: h ++ [rbrack] ++ colon :: lit "22").head? = some lbrack := rfl
  simp only [hhead, if_true, hlen, e1, e2, e3, e4]
  rw [if_neg (by omega), if_pos (by simp)]
  simp only [e1, e2, (indexByte_eq_none lbrack _).2 hl]
  have : indexByte rbrack (colon :: lit "22") = none := by decide
  simp [this]

/-- When a host followed by `:22` splits, the host has no colon and no bracket, or it is a
bracketed text without inner bracket. -/
theorem SplitHostPort_port_inv (host : Bytes) (parts : Bytes × Bytes)
    (h : SplitHostPort (host ++ colon :: lit "22") = .ok parts) :
    (colon ∉ host ∧ lbrack ∉ host ∧ rbrack ∉ host) ∨
    (∃ t, host = lbrack :: t ++ [rbrack] ∧ lbrack ∉ t ∧ rbrack ∉ t) := by
  unfold SplitHostPort at h
  rw [lastIndexByte_append colon host (lit "22") (by decide)] at h
  dsimp only at h
  have ht : List.take host.length (host ++ colon :: lit "22") = host := List.take_left _ _
  by_cases hhead : (host ++ colon :: lit "22").head? = some lbrack
  · right
    cases hidx : indexByte rbrack (host ++ colon :: lit "22") with
    | none => simp [hhead, hidx] at h
    | some close =>
      by_cases c1 : close + 1 = (host ++ colon :: lit "22").length
      · simp [hhead, hidx, c1] at h
      by_cases c2 : close + 1 = host.length
      · obtain ⟨a, b, hab, hlen, hra⟩ := indexByte_eq_some _ _ _ hidx
        have hsplit : host = a ++ [rbrack] := by
          have h1 := ht
          rw [hab, ← c2, ← hlen] at h1
          rw [← h1]
          have := @List.take_left' _ (a ++ [rbrack]) b (a.length + 1) (by simp)
          simpa using this
        subst hsplit
        cases a with
        | nil =>
          exfalso
          revert hhead
          decide
        | cons x t =>
          have hx : x = lbrack := by simpa using hhead
          subst hx
          refine ⟨t, rfl, ?_, fun hm => hra (List.mem_cons_of_mem _ hm)⟩
          intro hm
          have hin : (indexByte lbrack
              (List.drop 1 (lbrack :: t ++ [rbrack] ++ colon :: lit "22"))).isSome = true := by
            rw [indexByte_isSome]
            simp [hm]
          rw [if_pos hhead, hidx] at h
          simp only [if_neg c1, if_pos c2, hin, if_true] at h
          cases h
      · rw [if_pos hhead, hidx] at h
        simp only [if_neg c1, if_neg c2] at h
        by_cases c4 : List.get? (host ++ colon :: lit "22") (close + 1) = some colon
        · rw [if_pos c4] at h
          cases h
        · rw [if_neg c4] at h
          cases h
  · left
    rw [if_neg hhead, ht] at h
    by_cases c1 : colon ∈ host
    · rw [if_pos ((indexByte_isSome colon host).2 c1)] at h
      cases h
    by_cases c2 : lbrack ∈ host
    · rw [if_neg (by simpa [indexByte_isSome] using c1)] at h
      simp only [List.drop_zero] at h
      rw [if_pos ((indexByte_isSome lbrack _).2 (List.mem_append_left _ c2))] at h
      cases h
    by_cases c3 : rbrack ∈ host
    · rw [if_neg (by simpa [indexByte_isSome] using c1)] at h
      simp only [List.drop_zero] at h
      rw [if_pos ((indexByte_isSome rbrack _).2 (List.mem_append_left _ c3))] at h
      split at h <;> cases h
    exact ⟨c1, c2, c3⟩


/-! ## Lemmas on `path.Join` -/

/-- The embedding of `path.Clean` and `path.Join` on paths with empty, `.` and `..`
elements, rooted or not. -/
theorem Join_examples :
    Clean (lit "") = lit "." ∧
    Clean (lit "abc/def/../../..") = lit ".." ∧
    Clean (lit "/abc/def/../../..") = lit "/" ∧
    Clean (lit "abc/./../def") = lit "def" ∧
    Clean (lit "abc//def//ghi/") = lit "abc/def/ghi" ∧
    Clean (lit "../../abc/../d") = lit "../../d" ∧
    Join [lit "", lit "", lit ""] = lit "" ∧
    Join [lit "", lit "flux-system", lit "secret.yaml"] = lit "flux-system/secret.yaml" ∧
    Join [lit "out/", lit "flux-system", lit "secret.yaml"] =
      lit "out/flux-system/secret.yaml" ∧
    Join [lit "./out", lit "..", lit "secret.yaml"] = lit "secret.yaml" := by
  refine ⟨?_, ?_, ?_, ?_, ?_, ?_, ?_, ?_, ?_, ?_⟩ <;> decide

theorem cleanLoop_nil (fuel : Nat) (rooted : Bool) (out : Bytes) (dotdot : Nat) :
    cleanLoop fuel rooted [] out dotdot = out := by
  cases fuel <;> rfl

/-- The bound of the loop of `path.Clean` is never reached: any bound that is at least the
number of bytes left gives the same result. -/
theorem cleanLoop_fuel (f1 : Nat) : ∀ (f2 : Nat) (rooted : Bool) (rest out : Bytes) (dotdot : Nat),
    rest.length ≤ f1 → rest.length ≤ f2 →
    cleanLoop f1 rooted rest out dotdot = cleanLoop f2 rooted rest out dotdot := by
  induction f1 with
  | zero =>
    intro f2 rooted rest out dotdot h1 _
    have : rest = [] := List.length_eq_zero.1 (Nat.le_zero.1 h1)
    subst this
    rw [cleanLoop_nil, cleanLoop_nil]
  | succ f1 ih =>
    intro f2 rooted rest out dotdot h1 h2
    cases rest with
    | nil => rw [cleanLoop_nil, cleanLoop_nil]
    | cons c rest1 =>
      cases f2 with
      | zero => simp at h2
      | succ f2 =>
        simp only [List.length_cons, Nat.add_le_add_iff_right] at h1 h2
        have ht1 : rest1.tail.length ≤ f1 := by
          rw [List.length_tail]
          omega
        have ht2 : rest1.tail.length ≤ f2 := by
          rw [List.length_tail]
          omega
        have hd := (List.dropWhile_suffix (fun b => decide (b ≠ slash)) :
          List.dropWhile _ rest1 <:+ rest1).length_le
        unfold cleanLoop
        dsimp only
        split
        · exact ih _ _ _ _ _ h1 h2
        split
        · exact ih _ _ _ _ _ h1 h2
        split
        · split
          · exact ih _ _ _ _ _ ht1 ht2
          split
          · exact ih _ _ _ _ _ ht1 ht2
          · exact ih _ _ _ _ _ ht1 ht2
        · exact ih _ _ _ _ _ (by omega) (by omega)

theorem cleanLoop_slash (fuel : Nat) (rooted : Bool) (rest out : Bytes) (dotdot : Nat) :
    cleanLoop (fuel + 1) rooted (slash :: rest) out dotdot =
      cleanLoop fuel rooted rest out dotdot := by
  simp [cleanLoop]

theorem takeWhile_fileName (e rest : Bytes) (he : slash ∉ e)
    (hrest : rest = [] ∨ rest.head? = some slash) :
    (e ++ rest).takeWhile (fun b => decide (b ≠ slash)) = e ∧
    (e ++ rest).dropWhile (fun b => decide (b ≠ slash)) = rest := by
  induction e with
  | nil =>
    rcases hrest with rfl | hrest
    · simp
    · cases rest with
      | nil => simp
      | cons x xs =>
        simp at hrest
        simp [hrest]
  | cons x xs ih =>
    have hx : x ≠ slash := fun h => he (by simp [h])
    have := ih (fun h => he (List.mem_cons_of_mem _ h))
    simpa [hx] using this

/-- One round of the loop of `path.Clean` on a file name, in a path that does not start
with `/`: the name is copied, after a `/` when something was written before. -/
theorem cleanLoop_fileName (fuel : Nat) (e rest out : Bytes) (dotdot : Nat)
    (he : IsFileName e) (hrest : rest = [] ∨ rest.head? = some slash) :
    cleanLoop (fuel + 1) false (e ++ rest) out dotdot =
      cleanLoop fuel false rest ((if out.length ≠ 0 then out ++ [slash] else out) ++ e)
        dotdot := by
  obtain ⟨hne, hs, hd1, hd2⟩ := he
  cases e with
  | nil => exact absurd rfl hne
  | cons c e1 =>
    have hc : c ≠ slash := fun h => hs (by simp [h])
    have hs1 : slash ∉ e1 := fun h => hs (List.mem_cons_of_mem _ h)
    have htd := takeWhile_fileName e1 rest hs1 hrest
    have c2 : ¬ (c = dot ∧ (e1 ++ rest = [] ∨ (e1 ++ rest).head? = some slash)) := by
      rintro ⟨rfl, h⟩
      cases e1 with
      | nil => exact hd1 rfl
      | cons x xs =>
        simp at h
        exact hs1 (by simp [h])
    have c3 : ¬ (c = dot ∧ (e1 ++ rest).head? = some dot ∧
        ((e1 ++ rest).tail = [] ∨ (e1 ++ rest).tail.head? = some slash)) := by
      rintro ⟨rfl, h1, h2⟩
      cases e1 with
      | nil =>
        rcases hrest with rfl | hrest
        · simp at h1
        · rw [List.nil_append, hrest] at h1
          revert h1
          decide
      | cons x xs =>
        simp at h1
        subst h1
        cases xs with
        | nil => exact hd2 rfl
        | cons y ys =>
          simp at h2
          exact hs1 (by simp [h2])
    rw [List.cons_append, cleanLoop]
    simp only [if_neg hc, if_neg c2, if_neg c3, htd.1, htd.2]
    simp

/-- The join of three file names is the three names separated by `/`. -/
theorem Join_fileNames (a b c : Bytes) (ha : IsFileName a) (hb : IsFileName b)
    (hc : IsFileName c) : Join [a, b, c] = a ++ slash :: (b ++ slash :: c) := by
  have hane : a ≠ [] := ha.1
  have halen : 0 < a.length := List.length_pos.2 ha.1
  have hblen : 0 < b.length := List.length_pos.2 hb.1
  have hclen : 0 < c.length := List.length_pos.2 hc.1
  have hhead : a.head? ≠ some slash := by
    cases a with
    | nil => simp
    | cons x xs =>
      intro h
      simp at h
      exact ha.2.1 (by simp [h])
  have hbuf : List.foldl
      (fun buf e =>
        if buf.length > 0 ∨ e ≠ [] then (if buf.length > 0 then buf ++ [slash] else buf) ++ e
        else buf) [] [a, b, c] = a ++ slash :: (b ++ slash :: c) := by
    simp [hane, halen]
  obtain ⟨k, hk⟩ : ∃ k, (a ++ slash :: (b ++ slash :: c)).length = k + 5 :=
    ⟨a.length + b.length + c.length - 3, by simp; omega⟩
  unfold Join
  rw [if_neg (by simp [hane]), hbuf]
  unfold Clean
  have hpne : a ++ slash :: (b ++ slash :: c) ≠ [] := by simp [hane]
  have hroot : (decide ((a ++ slash :: (b ++ slash :: c)).head? = some slash)) = false := by
    cases a with
    | nil => exact absurd rfl hane
    | cons x xs => simpa using hhead
  simp only [if_neg hpne, hroot, hk]
  rw [cleanLoop_fileName _ a (slash :: (b ++ slash :: c)) _ _ ha (Or.inr rfl), cleanLoop_slash,
    cleanLoop_fileName _ b (slash :: c) _ _ hb (Or.inr rfl), cleanLoop_slash]
  have := cleanLoop_fileName k c [] ((if ((if ([] : Bytes).length ≠ 0 then [] ++ [slash] else []) ++ a).length ≠ 0 then
      ((if ([] : Bytes).length ≠ 0 then [] ++ [slash] else []) ++ a) ++ [slash] else
        ((if ([] : Bytes).length ≠ 0 then [] ++ [slash] else []) ++ a)) ++ b) 0 hc (Or.inl rfl)
  rw [List.append_nil] at this
  rw [this, cleanLoop_nil]
  simp [hane, halen.ne']


/-! ## The claims -/

/-- C1: when `Username` or `Password` is non-empty, whatever the other fields are, a run of
`Generate` contains no event of key loading, of key generation or of host-key scanning; and
when it returns a manifest, the secret it built and marshalled binds `username` and
`password` to `options.Username` and `options.Password`, binds none of `identity`,
`identity.pub` and `known_hosts`, and binds `caFile` exactly when `CAFilePath` is
non-empty. It does return a manifest as soon as the CA file (if `CAFilePath` is set) is
readable and the marshaller returns `y` for the secret: the manifest made of `y`, after a
run that is the `noop` arm, the read of the CA file if any, and the call of `makeSecret`
without key pair and without host key. -/
theorem Generate_username_password (env : Env Signer PublicKey Curve) (options : Options Curve)
    (h : options.Username ≠ [] ∨ options.Password ≠ []) :
    (∀ e ∈ (Generate env options).log,
        e.isKeyLoad = false ∧ e.isKeyGeneration = false ∧ e.isHostKeyScan = false) ∧
    (∀ m, (Generate env options).res = .ok m →
      ∃ secret b, Event.makeSecret secret ∈ (Generate env options).log ∧
        env.yamlMarshal secret = .ok b ∧ m.Content = lit "---\n" ++ resourceToString b ∧
        secret.StringData UsernameSecretKey = some options.Username ∧
        secret.StringData PasswordSecretKey = some options.Password ∧
        secret.StringData PrivateKeySecretKey = none ∧
        secret.StringData PublicKeySecretKey = none ∧
        secret.StringData KnownHostsSecretKey = none ∧
        ((secret.StringData CAFileSecretKey).isSome ↔ options.CAFilePath ≠ [])) ∧
    (∀ (caFile : Option Bytes) (y : Bytes),
      ((options.CAFilePath = [] ∧ caFile = none) ∨
        (options.CAFilePath ≠ [] ∧
          ∃ ca, env.readFile options.CAFilePath = .ok ca ∧ caFile = some ca)) →
      env.yamlMarshal (makeSecret none none caFile options) = .ok y →
      (Generate env options).res =
        .ok { Path := Join [options.TargetPath, options.Namespace, options.ManifestFile]
              Content := lit "---\n" ++ resourceToString y } ∧
      (Generate env options).log =
        Event.noop ::
          ((if options.CAFilePath ≠ [] then [Event.readCAFile options.CAFilePath] else []) ++
            [Event.makeSecret (makeSecret none none caFile options)]) ∧
      (makeSecret none none caFile options).StringData UsernameSecretKey =
        some options.Username ∧
      (makeSecret none none caFile options).StringData PasswordSecretKey =
        some options.Password) := by
  refine ⟨?_, ?_, ?_⟩
  · by_cases hca : options.CAFilePath = []
    · cases hy : env.yamlMarshal (makeSecret none none none options) <;>
        simp [Generate, h, hca, hy, bind, Run.bind, emit, fail, pure, Event.isKeyLoad,
          Event.isKeyGeneration, Event.isHostKeyScan]
    · cases hr : env.readFile options.CAFilePath with
      | error err =>
        simp [Generate, h, hca, hr, bind, Run.bind, emit, fail, pure, Event.isKeyLoad,
          Event.isKeyGeneration, Event.isHostKeyScan]
      | ok ca =>
        cases hy : env.yamlMarshal (makeSecret none none (some ca) options) <;>
          simp [Generate, h, hca, hr, hy, bind, Run.bind, emit, fail, pure, Event.isKeyLoad,
            Event.isKeyGeneration, Event.isHostKeyScan]
  · by_cases hca : options.CAFilePath = []
    · obtain ⟨-, -, e3, e4, e5, e6, e7, e8, -⟩ := makeSecret_lookup none none none options
      cases hy : env.yamlMarshal (makeSecret none none none options) with
      | error err =>
        simp [Generate, h, hca, hy, bind, Run.bind, emit, fail, pure]
      | ok b =>
        simp [Generate, h, hca, hy, bind, Run.bind, emit, fail, pure]
        simp [e3, e4, e5, e6, e7, e8, h]
    · cases hr : env.readFile options.CAFilePath with
      | error err =>
        simp [Generate, h, hca, hr, bind, Run.bind, emit, fail, pure]
      | ok ca =>
        obtain ⟨-, -, e3, e4, e5, e6, e7, e8, -⟩ :=
          makeSecret_lookup none none (some ca) options
        cases hy : env.yamlMarshal (makeSecret none none (some ca) options) with
        | error err =>
          simp [Generate, h, hca, hr, hy, bind, Run.bind, emit, fail, pure]
        | ok b =>
          simp [Generate, h, hca, hr, hy, bind, Run.bind, emit, fail, pure]
          simp [e3, e4, e5, e6, e7, e8, h]
  · intro caFile y hca hyaml
    obtain ⟨kl, kr⟩ := keyStage_noop env options h
    have hs : (scanStage env options none).res = .ok none := rfl
    have hsl : (scanStage env options none).log = [] := rfl
    have hc : (caStage env options).res = .ok caFile := by
      rw [caStage_res]
      rcases hca with ⟨h1, rfl⟩ | ⟨h1, ca, h2, rfl⟩
      · simp [h1]
      · simp [h1, h2]
    obtain ⟨l1, r1⟩ := Run.bind_of_ok (keyStage env options)
      (fun keypair => scanStage env options keypair >>= fun hostKey =>
        caStage env options >>= fun caFile => marshalStage env options keypair hostKey caFile)
      _ kr
    obtain ⟨l2, r2⟩ := Run.bind_of_ok (scanStage env options none)
      (fun hostKey => caStage env options >>= fun caFile =>
        marshalStage env options none hostKey caFile)
      _ hs
    obtain ⟨l3, r3⟩ := Run.bind_of_ok (caStage env options)
      (fun caFile => marshalStage env options none none caFile) _ hc
    obtain ⟨-, -, e3, e4, -⟩ := makeSecret_lookup none none caFile options
    rw [Generate_eq_stages, l1, r1, l2, r2, l3, r3, marshalStage_log, marshalStage_res, hyaml,
      kl, hsl, caStage_log, e3, e4]
    simp [h]

/-- The witness of C1: a user name and a password together with a key path and a CA file;
`Generate` returns the manifest of a secret with `caFile`, `password` and `username`. -/
theorem Generate_username_password_witness :
    (passwordOptions.Username ≠ [] ∨ passwordOptions.Password ≠ []) ∧
    (Generate demoEnv passwordOptions).res = .ok passwordManifest ∧
    ((∀ e ∈ (Generate demoEnv passwordOptions).log,
        e.isKeyLoad = false ∧ e.isKeyGeneration = false ∧ e.isHostKeyScan = false) ∧
    (∀ m, (Generate demoEnv passwordOptions).res = .ok m →
      ∃ secret b, Event.makeSecret secret ∈ (Generate demoEnv passwordOptions).log ∧
        demoEnv.yamlMarshal secret = .ok b ∧ m.Content = lit "---\n" ++ resourceToString b ∧
        secret.StringData UsernameSecretKey = some passwordOptions.Username ∧
        secret.StringData PasswordSecretKey = some passwordOptions.Password ∧
        secret.StringData PrivateKeySecretKey = none ∧
        secret.StringData PublicKeySecretKey = none ∧
        secret.StringData KnownHostsSecretKey = none ∧
        ((secret.StringData CAFileSecretKey).isSome ↔ passwordOptions.CAFilePath ≠ [])) ∧
    (∀ (caFile : Option Bytes) (y : Bytes),
      ((passwordOptions.CAFilePath = [] ∧ caFile = none) ∨
        (passwordOptions.CAFilePath ≠ [] ∧
          ∃ ca, demoEnv.readFile passwordOptions.CAFilePath = .ok ca ∧ caFile = some ca)) →
      demoEnv.yamlMarshal (makeSecret none none caFile passwordOptions) = .ok y →
      (Generate demoEnv passwordOptions).res =
        .ok { Path := Join [passwordOptions.TargetPath, passwordOptions.Namespace,
                passwordOptions.ManifestFile]
              Content := lit "---\n" ++ resourceToString y } ∧
      (Generate demoEnv passwordOptions).log =
        Event.noop ::
          ((if passwordOptions.CAFilePath ≠ [] then
              [Event.readCAFile passwordOptions.CAFilePath] else []) ++
            [Event.makeSecret (makeSecret none none caFile passwordOptions)]) ∧
      (makeSecret none none caFile passwordOptions).StringData UsernameSecretKey =
        some passwordOptions.Username ∧
      (makeSecret none none caFile passwordOptions).StringData PasswordSecretKey =
        some passwordOptions.Password)) :=
  ⟨by decide, by decide, Generate_username_password demoEnv passwordOptions (by decide)⟩

/-- C2 (as amended): with `Username` and `Password` empty and `PrivateKeyPath` non-empty,
when the key file reads as `b`, `b` decodes to a PEM block that parses as a private key, the
scan of `SSHHostname` returns a host key, the CA file (if `CAFilePath` is set) is readable,
and the marshaller returns `y` for the secret, `Generate` returns the manifest made of `y`,
and the secret it built binds `identity` to the whole of `b`, `identity.pub` to the
authorized-key encoding of the public key of the parsed key, and `known_hosts` to the
scanned host key. -/
theorem Generate_loaded_key (env : Env Signer PublicKey Curve) (options : Options Curve)
    (b blockBytes : Bytes) (ppk : Signer) (hostKey : Bytes) (caFile : Option Bytes) (y : Bytes)
    (hu : options.Username = []) (hp : options.Password = [])
    (hpath : options.PrivateKeyPath ≠ [])
    (hread : env.readFile options.PrivateKeyPath = .ok b)
    (hpem : env.pemDecode b = some blockBytes)
    (hparse : env.parsePrivateKey blockBytes = .ok ppk)
    (hscan : env.sshScanHostKey (scanAddress options.SSHHostname) = .ok (some hostKey))
    (hca : (options.CAFilePath = [] ∧ caFile = none) ∨
      (options.CAFilePath ≠ [] ∧
        ∃ ca, env.readFile options.CAFilePath = .ok ca ∧ caFile = some ca))
    (hyaml : env.yamlMarshal
      (makeSecret
        (some { PublicKey := env.marshalAuthorizedKey (env.publicKey ppk), PrivateKey := b })
        (some hostKey) caFile options) = .ok y) :
    (Generate env options).res =
      .ok { Path := Join [options.TargetPath, options.Namespace, options.ManifestFile]
            Content := lit "---\n" ++ resourceToString y } ∧
    ∃ secret, Event.makeSecret secret ∈ (Generate env options).log ∧
      env.yamlMarshal secret = .ok y ∧
      secret.StringData PrivateKeySecretKey = some b ∧
      secret.StringData PublicKeySecretKey =
        some (env.marshalAuthorizedKey (env.publicKey ppk)) ∧
      secret.StringData KnownHostsSecretKey = some hostKey := by
  have hk : (keyStage env options).res = .ok (some
      { PublicKey := env.marshalAuthorizedKey (env.publicKey ppk), PrivateKey := b }) := by
    rw [keyStage_load env options hu hp hpath]
    exact loadKeyPair_res_ok env _ b blockBytes ppk hread hpem hparse
  have hs : (scanStage env options (some
      { PublicKey := env.marshalAuthorizedKey (env.publicKey ppk), PrivateKey := b })).res =
      .ok (some hostKey) := by
    have := scanHostKey_res env options.SSHHostname
    rw [hscan] at this
    exact this
  have hc : (caStage env options).res = .ok caFile := by
    rw [caStage_res]
    rcases hca with ⟨h1, rfl⟩ | ⟨h1, ca, h2, rfl⟩
    · simp [h1]
    · simp [h1, h2]
  obtain ⟨l1, r1⟩ := Run.bind_of_ok (keyStage env options)
    (fun keypair => scanStage env options keypair >>= fun hostKey =>
      caStage env options >>= fun caFile => marshalStage env options keypair hostKey caFile)
    _ hk
  obtain ⟨l2, r2⟩ := Run.bind_of_ok (scanStage env options (some
      { PublicKey := env.marshalAuthorizedKey (env.publicKey ppk), PrivateKey := b }))
    (fun hostKey => caStage env options >>= fun caFile =>
      marshalStage env options (some
        { PublicKey := env.marshalAuthorizedKey (env.publicKey ppk), PrivateKey := b })
        hostKey caFile)
    _ hs
  obtain ⟨l3, r3⟩ := Run.bind_of_ok (caStage env options)
    (fun caFile => marshalStage env options (some
        { PublicKey := env.marshalAuthorizedKey (env.publicKey ppk), PrivateKey := b })
        (some hostKey) caFile)
    _ hc
  obtain ⟨-, -, -, -, -, e6, e7, e8, -⟩ := makeSecret_lookup
    (some { PublicKey := env.marshalAuthorizedKey (env.publicKey ppk), PrivateKey := b })
    (some hostKey) caFile options
  rw [Generate_eq_stages, l1, r1, l2, r2, l3, r3, marshalStage_log, marshalStage_res, hyaml]
  exact ⟨rfl, _, by simp, hyaml, e6, e7, e8⟩

/-- The witness of C2 as amended: the key file of the demo environment. -/
theorem Generate_loaded_key_witness :
    keyFileOptions.Username = [] ∧ keyFileOptions.Password = [] ∧
    keyFileOptions.PrivateKeyPath ≠ [] ∧
    ((Generate demoEnv keyFileOptions).res =
      .ok { Path := Join [keyFileOptions.TargetPath, keyFileOptions.Namespace,
              keyFileOptions.ManifestFile]
            Content := lit "---\n" ++ resourceToString (demoMarshal
              (makeSecret (some demoKeyPair) (some (lit "github.com ssh-test HOSTKEY")) none
                keyFileOptions)) } ∧
    ∃ secret, Event.makeSecret secret ∈ (Generate demoEnv keyFileOptions).log ∧
      demoEnv.yamlMarshal secret = .ok (demoMarshal
        (makeSecret (some demoKeyPair) (some (lit "github.com ssh-test HOSTKEY")) none
          keyFileOptions)) ∧
      secret.StringData PrivateKeySecretKey = some demoKeyFile ∧
      secret.StringData PublicKeySecretKey =
        some (demoEnv.marshalAuthorizedKey (demoEnv.publicKey (lit "signer"))) ∧
      secret.StringData KnownHostsSecretKey = some (lit "github.com ssh-test HOSTKEY")) :=
  ⟨by decide, by decide, by decide,
    Generate_loaded_key demoEnv keyFileOptions demoKeyFile (lit "KEY") (lit "signer")
      (lit "github.com ssh-test HOSTKEY") none _ (by decide) (by decide) (by decide)
      (by decide) (by decide) (by decide) (by decide) (Or.inl ⟨by decide, rfl⟩) rfl⟩

/-- The counterexample to C2 as stated: the key file reads, decodes and parses, the scan
returns a host key and no CA file is asked for, yet `Generate` returns an error, the one of
the marshaller. -/
theorem Generate_loaded_key_counterexample :
    keyFileOptions.Username = [] ∧ keyFileOptions.Password = [] ∧
    keyFileOptions.PrivateKeyPath ≠ [] ∧
    failingMarshalEnv.readFile keyFileOptions.PrivateKeyPath = .ok demoKeyFile ∧
    failingMarshalEnv.pemDecode demoKeyFile = some (lit "KEY") ∧
    failingMarshalEnv.parsePrivateKey (lit "KEY") = .ok (lit "signer") ∧
    failingMarshalEnv.sshScanHostKey (scanAddress keyFileOptions.SSHHostname) =
      .ok (some (lit "github.com ssh-test HOSTKEY")) ∧
    keyFileOptions.CAFilePath = [] ∧
    (Generate failingMarshalEnv keyFileOptions).res =
      .error (.plain (lit "yaml: marshal failed")) := by
  decide

/-- C3: when the mode switch reaches the key-generation arm (`Username`, `Password` and
`PrivateKeyPath` empty, `PrivateKeyAlgorithm` non-empty) and the algorithm is none of the
three constants, `Generate` returns no manifest but an error whose message is
`unsupported public key algorithm: ` followed by the algorithm, hence contains it; no key
generator is called and the host key is not scanned. -/
theorem Generate_unsupported_algorithm (env : Env Signer PublicKey Curve) (options : Options Curve)
    (hu : options.Username = []) (hp : options.Password = [])
    (hpath : options.PrivateKeyPath = []) (halg : options.PrivateKeyAlgorithm ≠ [])
    (h1 : options.PrivateKeyAlgorithm ≠ env.RSAPrivateKeyAlgorithm)
    (h2 : options.PrivateKeyAlgorithm ≠ env.ECDSAPrivateKeyAlgorithm)
    (h3 : options.PrivateKeyAlgorithm ≠ env.Ed25519PrivateKeyAlgorithm) :
    (∃ err, (Generate env options).res = .error err ∧
      err.Error = lit "unsupported public key algorithm: " ++ options.PrivateKeyAlgorithm ∧
      options.PrivateKeyAlgorithm <:+: err.Error) ∧
    (∀ e ∈ (Generate env options).log, e.isGeneratorCall = false ∧ e.isHostKeyScan = false) := by
  obtain ⟨hlog, hres⟩ := generateKeyPair_unsupported env options h1 h2 h3
  rw [← keyStage_generate env options hu hp hpath halg] at hlog hres
  obtain ⟨glog, gres⟩ := Run.bind_of_error (keyStage env options) _ _ hres
  rw [Generate_eq_stages, glog, gres, hlog]
  refine ⟨⟨_, rfl, rfl, ?_⟩, ?_⟩
  · exact (List.suffix_append _ _).isInfix
  · simp [Event.isGeneratorCall, Event.isHostKeyScan]

/-- The witness of C3: the algorithm `dsa`. -/
theorem Generate_unsupported_algorithm_witness :
    unsupportedOptions.PrivateKeyAlgorithm ≠ [] ∧
    ((∃ err, (Generate demoEnv unsupportedOptions).res = .error err ∧
      err.Error = lit "unsupported public key algorithm: " ++
        unsupportedOptions.PrivateKeyAlgorithm ∧
      unsupportedOptions.PrivateKeyAlgorithm <:+: err.Error) ∧
    (∀ e ∈ (Generate demoEnv unsupportedOptions).log,
      e.isGeneratorCall = false ∧ e.isHostKeyScan = false)) :=
  ⟨by decide,
    Generate_unsupported_algorithm demoEnv unsupportedOptions (by decide) (by decide)
      (by decide) (by decide) (by decide) (by decide) (by decide)⟩

/-- C4 (as amended): for a text made of newline-terminated lines, in which
`creationTimestamp: null` occurs in at most one line, which is then the line
`  creationTimestamp: null`, and `status: {}` occurs in at most one line, which is then the
line `status: {}`, neither text occurs in `resourceToString` of the text, nor in it
preceded by `---\n`. -/
theorem resourceToString_substring_free (ls : List Bytes) (hls : ∀ l ∈ ls, newline ∉ l)
    (h1 : ∀ l ∈ ls, lit "creationTimestamp: null" <:+: l → l = creationTimestampLine)
    (h2 : ∀ l ∈ ls, lit "status: \x7b\x7d" <:+: l → l = statusLine)
    (c1 : ls.count creationTimestampLine ≤ 1) (c2 : ls.count statusLine ≤ 1) :
    ¬ lit "creationTimestamp: null" <:+: resourceToString (unlines ls) ∧
    ¬ lit "status: \x7b\x7d" <:+: resourceToString (unlines ls) ∧
    ¬ lit "creationTimestamp: null" <:+: lit "---\n" ++ resourceToString (unlines ls) ∧
    ¬ lit "status: \x7b\x7d" <:+: lit "---\n" ++ resourceToString (unlines ls) := by
  have hres := resourceToString_unlines ls hls
    (fun l hl hs => h1 l hl (List.IsInfix.trans (by decide) hs.isInfix))
    (fun l hl hs => h2 l hl (List.IsInfix.trans (by decide) hs.isInfix))
  have hdoc : lit "---\n" ++ resourceToString (unlines ls) =
      unlines (lit "---" :: (ls.erase creationTimestampLine).erase statusLine) := by
    rw [hres, unlines_cons]
    rfl
  have k1 : ∀ l ∈ (ls.erase creationTimestampLine).erase statusLine,
      ¬ lit "creationTimestamp: null" <:+: l := by
    intro l hl hs
    have hl1 := List.mem_of_mem_erase hl
    have := h1 l (List.mem_of_mem_erase hl1) hs
    subst this
    have hpos := List.count_pos_iff.2 hl1
    rw [List.count_erase_self] at hpos
    omega
  have k2 : ∀ l ∈ (ls.erase creationTimestampLine).erase statusLine,
      ¬ lit "status: \x7b\x7d" <:+: l := by
    intro l hl hs
    have := h2 l (List.mem_of_mem_erase (List.mem_of_mem_erase hl)) hs
    subst this
    have hpos := List.count_pos_iff.2 hl
    rw [List.count_erase_self, List.count_erase_of_ne (by decide)] at hpos
    omega
  refine ⟨?_, ?_, ?_, ?_⟩
  · rw [hres]
    intro h
    obtain ⟨l, hl, hs⟩ := infix_unlines _ _ (by decide) (by decide) h
    exact k1 l hl hs
  · rw [hres]
    intro h
    obtain ⟨l, hl, hs⟩ := infix_unlines _ _ (by decide) (by decide) h
    exact k2 l hl hs
  · rw [hdoc]
    intro h
    obtain ⟨l, hl, hs⟩ := infix_unlines _ _ (by decide) (by decide) h
    rcases List.mem_cons.1 hl with rfl | hl
    · revert hs
      decide
    · exact k1 l hl hs
  · rw [hdoc]
    intro h
    obtain ⟨l, hl, hs⟩ := infix_unlines _ _ (by decide) (by decide) h
    rcases List.mem_cons.1 hl with rfl | hl
    · revert hs
      decide
    · exact k2 l hl hs

/-- The witness of C4 as amended: the lines of a serialized secret. -/
theorem resourceToString_substring_free_witness :
    (demoLines.count creationTimestampLine ≤ 1 ∧ demoLines.count statusLine ≤ 1) ∧
    (¬ lit "creationTimestamp: null" <:+: resourceToString (unlines demoLines) ∧
    ¬ lit "status: \x7b\x7d" <:+: resourceToString (unlines demoLines) ∧
    ¬ lit "creationTimestamp: null" <:+: lit "---\n" ++ resourceToString (unlines demoLines) ∧
    ¬ lit "status: \x7b\x7d" <:+: lit "---\n" ++ resourceToString (unlines demoLines)) :=
  ⟨by decide,
    resourceToString_substring_free demoLines (by decide) (by decide) (by decide) (by decide)
      (by decide)⟩

/-- The counterexample to C4 as stated: in the serialized secret whose password is
`status: {}`, the function removes the `creationTimestamp` line and leaves the password,
so the result, with or without `---\n` before it, contains `status: {}`. -/
theorem resourceToString_substring_counterexample :
    lit "status: \x7b\x7d" <:+: resourceToString quotedStatusYaml ∧
    lit "status: \x7b\x7d" <:+: lit "---\n" ++ resourceToString quotedStatusYaml := by
  decide

/-- C5: when `Generate` returns a manifest, its path is `path.Join` of `TargetPath`,
`Namespace` and `ManifestFile`, its content is `---\n` followed by `resourceToString` of
the bytes the marshaller returned for the secret that was built, so the content starts with
`---\n`; for `out`, `flux-system` and `secret.yaml` the path is
`out/flux-system/secret.yaml`, and for any three file names (non-empty, without `/`, other
than `.` and `..`) it is the three names separated by `/`. -/
theorem Generate_manifest (env : Env Signer PublicKey Curve) (options : Options Curve) (m : Manifest)
    (h : (Generate env options).res = .ok m) :
    m.Path = Join [options.TargetPath, options.Namespace, options.ManifestFile] ∧
    (∃ secret b, Event.makeSecret secret ∈ (Generate env options).log ∧
      env.yamlMarshal secret = .ok b ∧ m.Content = lit "---\n" ++ resourceToString b) ∧
    lit "---\n" <+: m.Content ∧
    (options.TargetPath = lit "out" → options.Namespace = lit "flux-system" →
      options.ManifestFile = lit "secret.yaml" → m.Path = lit "out/flux-system/secret.yaml") ∧
    (IsFileName options.TargetPath → IsFileName options.Namespace →
      IsFileName options.ManifestFile →
      m.Path = options.TargetPath ++ slash :: (options.Namespace ++ slash ::
        options.ManifestFile)) := by
  obtain ⟨keypair, hostKey, caFile, b, -, -, -, hy, hlog, rfl⟩ := Generate_ok_inv env options m h
  refine ⟨rfl, ⟨_, b, ?_, hy, rfl⟩, List.prefix_append _ _, ?_, ?_⟩
  · rw [hlog]
    simp
  · intro h1 h2 h3
    simp only [h1, h2, h3]
    decide
  · intro h1 h2 h3
    exact Join_fileNames _ _ _ h1 h2 h3

/-- The witness of C5: the options of the specification, with a key file. -/
theorem Generate_manifest_witness :
    (Generate demoEnv keyFileOptions).res = .ok demoManifest ∧
    (demoManifest.Path =
        Join [keyFileOptions.TargetPath, keyFileOptions.Namespace,
          keyFileOptions.ManifestFile] ∧
    (∃ secret b, Event.makeSecret secret ∈ (Generate demoEnv keyFileOptions).log ∧
      demoEnv.yamlMarshal secret = .ok b ∧
      demoManifest.Content = lit "---\n" ++ resourceToString b) ∧
    lit "---\n" <+: demoManifest.Content ∧
    (keyFileOptions.TargetPath = lit "out" → keyFileOptions.Namespace = lit "flux-system" →
      keyFileOptions.ManifestFile = lit "secret.yaml" →
      demoManifest.Path = lit "out/flux-system/secret.yaml") ∧
    (IsFileName keyFileOptions.TargetPath → IsFileName keyFileOptions.Namespace →
      IsFileName keyFileOptions.ManifestFile →
      demoManifest.Path =
        keyFileOptions.TargetPath ++ slash :: (keyFileOptions.Namespace ++ slash ::
          keyFileOptions.ManifestFile))) :=
  ⟨by decide, Generate_manifest demoEnv keyFileOptions demoManifest (by decide)⟩

/-- C6: when a key pair was obtained (loaded from `PrivateKeyPath`, or generated) and the
scan of `SSHHostname` fails, `Generate` returns no manifest but an error whose message
contains the address that was scanned (`SSHHostname`, with `:22` appended when it had no
port), hence `SSHHostname` itself, and the message of the error of the scan, which it wraps;
the CA file is not read and no secret is built. -/
theorem Generate_scan_failure (env : Env Signer PublicKey Curve) (options : Options Curve) (kp : KeyPair)
    (cause : GoError)
    (hu : options.Username = []) (hp : options.Password = [])
    (hkey : (options.PrivateKeyPath ≠ [] ∧
        (loadKeyPair env options.PrivateKeyPath).res = .ok (some kp)) ∨
      (options.PrivateKeyPath = [] ∧ options.PrivateKeyAlgorithm ≠ [] ∧
        (generateKeyPair env options).res = .ok (some kp)))
    (hscan : env.sshScanHostKey (scanAddress options.SSHHostname) = .error cause) :
    (∃ err, (Generate env options).res = .error err ∧
      scanAddress options.SSHHostname <:+: err.Error ∧
      options.SSHHostname <:+: err.Error ∧
      err.Unwrap = some cause ∧ cause.Error <:+: err.Error) ∧
    (∀ e ∈ (Generate env options).log, e.isCARead = false ∧ e.isMakeSecret = false) := by
  have hk : (keyStage env options).res = .ok (some kp) ∧
      ∀ e ∈ (keyStage env options).log, e.isCARead = false ∧ e.isMakeSecret = false := by
    rcases hkey with ⟨hpath, hres⟩ | ⟨hpath, halg, hres⟩
    · rw [keyStage_load env options hu hp hpath, loadKeyPair_log]
      exact ⟨hres, by simp [Event.isCARead, Event.isMakeSecret]⟩
    · rw [keyStage_generate env options hu hp hpath halg]
      refine ⟨hres, ?_⟩
      rcases generateKeyPair_log env options with hl | hl <;> rw [hl] <;>
        simp [Event.isCARead, Event.isMakeSecret]
  obtain ⟨hkres, hklog⟩ := hk
  have hsres := scanHostKey_res env options.SSHHostname
  rw [hscan] at hsres
  have hs2 : (scanStage env options (some kp)).res = _ := hsres
  obtain ⟨glog, gres⟩ := Run.bind_of_ok (keyStage env options)
    (fun keypair => scanStage env options keypair >>= fun hostKey =>
      caStage env options >>= fun caFile => marshalStage env options keypair hostKey caFile)
    _ hkres
  obtain ⟨tlog, tres⟩ := Run.bind_of_error (scanStage env options (some kp))
    (fun hostKey => caStage env options >>= fun caFile =>
      marshalStage env options (some kp) hostKey caFile) _ hs2
  rw [Generate_eq_stages, glog, gres, tlog, tres]
  refine ⟨⟨_, rfl, ?_, ?_, rfl, ?_⟩, ?_⟩
  · exact ⟨lit "SSH key scan for host ", lit " failed, error: " ++ cause.Error, by
      simp [GoError.Error, List.append_assoc]⟩
  · exact (host_prefix_scanAddress _).isInfix.trans
      ⟨lit "SSH key scan for host ", lit " failed, error: " ++ cause.Error, by
        simp [GoError.Error, List.append_assoc]⟩
  · exact (List.suffix_append _ _).isInfix
  · intro e he
    rcases List.mem_append.1 he with he | he
    · exact hklog e he
    · have : (scanStage env options (some kp)).log = _ := scanHostKey_log env options.SSHHostname
      rw [this] at he
      simp at he
      rcases he with rfl | rfl <;> simp [Event.isCARead, Event.isMakeSecret]

/-- The witness of C6: a key file and a host that does not answer. -/
theorem Generate_scan_failure_witness :
    (loadKeyPair demoEnv unreachableOptions.PrivateKeyPath).res = .ok (some demoKeyPair) ∧
    demoEnv.sshScanHostKey (scanAddress unreachableOptions.SSHHostname) =
      .error (.plain (lit "dial tcp: lookup failed")) ∧
    ((∃ err, (Generate demoEnv unreachableOptions).res = .error err ∧
      scanAddress unreachableOptions.SSHHostname <:+: err.Error ∧
      unreachableOptions.SSHHostname <:+: err.Error ∧
      err.Unwrap = some (.plain (lit "dial tcp: lookup failed")) ∧
      (GoError.plain (lit "dial tcp: lookup failed")).Error <:+: err.Error) ∧
    (∀ e ∈ (Generate demoEnv unreachableOptions).log,
      e.isCARead = false ∧ e.isMakeSecret = false)) :=
  ⟨by decide, by decide,
    Generate_scan_failure demoEnv unreachableOptions demoKeyPair
      (.plain (lit "dial tcp: lookup failed")) (by decide) (by decide)
      (Or.inl ⟨by decide, by decide⟩) (by decide)⟩

/-- C7 (as amended): in every run of `Generate` at most one arm of the mode switch is
entered; exactly one is entered when one of `Username`, `Password`, `PrivateKeyPath` and
`PrivateKeyAlgorithm` is non-empty, and none when the four are empty. -/
theorem Generate_mode_branch_count (env : Env Signer PublicKey Curve) (options : Options Curve) :
    ((Generate env options).log.filter Event.isModeBranch).length ≤ 1 ∧
    (((Generate env options).log.filter Event.isModeBranch).length = 1 ↔
      (options.Username ≠ [] ∨ options.Password ≠ [] ∨ options.PrivateKeyPath ≠ [] ∨
        options.PrivateKeyAlgorithm ≠ [])) := by
  rw [Generate_modeBranch]
  by_cases h : options.Username ≠ [] ∨ options.Password ≠ []
  · rw [(keyStage_noop env options h).1]
    have : options.Username ≠ [] ∨ options.Password ≠ [] ∨ options.PrivateKeyPath ≠ [] ∨
        options.PrivateKeyAlgorithm ≠ [] := by tauto
    simp [Event.isModeBranch, this]
  · have hu : options.Username = [] := by
      by_contra hne
      exact h (Or.inl hne)
    have hp : options.Password = [] := by
      by_contra hne
      exact h (Or.inr hne)
    by_cases hpath : options.PrivateKeyPath = []
    · by_cases halg : options.PrivateKeyAlgorithm = []
      · rw [(keyStage_none env options hu hp hpath halg).1]
        simp [hu, hp, hpath, halg]
      · rw [keyStage_generate env options hu hp hpath halg]
        rcases generateKeyPair_log env options with hl | hl <;> rw [hl] <;>
          simp [Event.isModeBranch, halg]
    · rw [keyStage_load env options hu hp hpath, loadKeyPair_log]
      simp [Event.isModeBranch, hpath]

/-- The counterexample to C7 as stated: with a CA file only, none of the four mode fields
being set, `Generate` returns a manifest and no arm of the mode switch is entered. -/
theorem Generate_mode_branch_counterexample :
    caOnlyOptions.Username = [] ∧ caOnlyOptions.Password = [] ∧
    caOnlyOptions.PrivateKeyPath = [] ∧ caOnlyOptions.PrivateKeyAlgorithm = [] ∧
    ((Generate demoEnv caOnlyOptions).log.filter Event.isModeBranch).length = 0 ∧
    (Generate demoEnv caOnlyOptions).res =
      .ok { Path := lit "out/flux-system/secret.yaml",
            Content := lit "---\nmetadata:\n  name: flux-system\n  namespace: flux-system\nstringData:\n  caFile: CERT\n" } := by
  decide

/-- C8: the secret built by `makeSecret` has the name and the namespace of the options, and
its `stringData` binds a key `k` to a value `v` exactly in these cases: `Username` or
`Password` is non-empty and `k`, `v` are `username`, `options.Username` or `password`,
`options.Password`; the CA bytes are present, `k` is `caFile` and `v` the CA bytes; the key
pair and the host key are both present and `k`, `v` are `identity` and the private key,
`identity.pub` and the public key, or `known_hosts` and the host key. -/
theorem makeSecret_stringData (keypair : Option KeyPair) (hostKey caFile : Option Bytes)
    (options : Options Curve) :
    (makeSecret keypair hostKey caFile options).Name = options.Name ∧
    (makeSecret keypair hostKey caFile options).Namespace = options.Namespace ∧
    ∀ k v, (makeSecret keypair hostKey caFile options).StringData k = some v ↔
      ((options.Username ≠ [] ∨ options.Password ≠ []) ∧
        ((k = UsernameSecretKey ∧ v = options.Username) ∨
          (k = PasswordSecretKey ∧ v = options.Password))) ∨
      (k = CAFileSecretKey ∧ caFile = some v) ∨
      (∃ kp hk, keypair = some kp ∧ hostKey = some hk ∧
        ((k = PrivateKeySecretKey ∧ v = kp.PrivateKey) ∨
          (k = PublicKeySecretKey ∧ v = kp.PublicKey) ∨
          (k = KnownHostsSecretKey ∧ v = hk))) := by
  obtain ⟨e1, e2, e3, e4, e5, e6, e7, e8, e9⟩ := makeSecret_lookup keypair hostKey caFile options
  refine ⟨e1, e2, ?_⟩
  intro k v
  by_cases k1 : k = UsernameSecretKey
  · subst k1
    rw [e3]
    by_cases hu : options.Username ≠ [] ∨ options.Password ≠ [] <;>
      simp +decide [hu, eq_comm]
  by_cases k2 : k = PasswordSecretKey
  · subst k2
    rw [e4]
    by_cases hu : options.Username ≠ [] ∨ options.Password ≠ [] <;>
      simp +decide [hu, eq_comm]
  by_cases k3 : k = CAFileSecretKey
  · subst k3
    rw [e5]
    simp +decide
  by_cases k4 : k = PrivateKeySecretKey
  · subst k4
    rw [e6]
    cases keypair <;> cases hostKey <;> simp +decide [eq_comm]
  by_cases k5 : k = PublicKeySecretKey
  · subst k5
    rw [e7]
    cases keypair <;> cases hostKey <;> simp +decide [eq_comm]
  by_cases k6 : k = KnownHostsSecretKey
  · subst k6
    rw [e8]
    cases keypair <;> cases hostKey <;> simp +decide [eq_comm]
  · rw [e9 k (by simp [*])]
    simp [*]

/-- C9 (as amended): for a text made of newline-terminated lines, in which no line other
than `  creationTimestamp: null` ends with that text and no line other than `status: {}`
ends with that text, `resourceToString` removes the first line equal to
`  creationTimestamp: null` and the first line equal to `status: {}`, where present, and
keeps every other line, in order; when the text has neither line the result is the text. -/
theorem resourceToString_lines (ls : List Bytes) (hls : ∀ l ∈ ls, newline ∉ l)
    (h1 : ∀ l ∈ ls, creationTimestampLine <:+ l → l = creationTimestampLine)
    (h2 : ∀ l ∈ ls, statusLine <:+ l → l = statusLine) :
    resourceToString (unlines ls) =
      unlines ((ls.erase creationTimestampLine).erase statusLine) ∧
    (creationTimestampLine ∉ ls → statusLine ∉ ls →
      resourceToString (unlines ls) = unlines ls) := by
  have h := resourceToString_unlines ls hls h1 h2
  refine ⟨h, fun n1 n2 => ?_⟩
  rw [h, List.erase_of_not_mem n1, List.erase_of_not_mem n2]

/-- The witness of C9 as amended: the lines of a serialized secret. -/
theorem resourceToString_lines_witness :
    (∀ l ∈ demoLines, newline ∉ l) ∧
    (resourceToString (unlines demoLines) =
      unlines ((demoLines.erase creationTimestampLine).erase statusLine) ∧
    (creationTimestampLine ∉ demoLines → statusLine ∉ demoLines →
      resourceToString (unlines demoLines) = unlines demoLines)) :=
  ⟨by decide, resourceToString_lines demoLines (by decide) (by decide) (by decide)⟩

/-- The counterexample to C9 as stated: a text whose lines have no newline inside and are
neither `  creationTimestamp: null` nor `status: {}`, and that `resourceToString` changes:
the end of the indented line `    status: {}` is removed with its newline, and what is left
of it is joined to the next line. -/
theorem resourceToString_lines_counterexample :
    (∀ l ∈ indentedLines, newline ∉ l) ∧
    creationTimestampLine ∉ indentedLines ∧ statusLine ∉ indentedLines ∧
    resourceToString (unlines indentedLines) = lit "stringData:\n  caFile: |\n        end\n" ∧
    resourceToString (unlines indentedLines) ≠ unlines indentedLines := by
  decide

/-- C10 (as amended): the address `scanHostKey` hands to the scan is `host` when `host`
has a port (`net.SplitHostPort` splits it) and `host` followed by `:22` otherwise; that
address has a port exactly when `host` has one, or contains none of `:`, `[` and `]`, or is
a text without bracket enclosed in brackets. -/
theorem scanAddress_port (host : Bytes) :
    (hasPort host = true → scanAddress host = host) ∧
    (hasPort host = false → scanAddress host = host ++ lit ":22") ∧
    (hasPort (scanAddress host) = true ↔
      hasPort host = true ∨ (colon ∉ host ∧ lbrack ∉ host ∧ rbrack ∉ host) ∨
        ∃ t, host = lbrack :: t ++ [rbrack] ∧ lbrack ∉ t ∧ rbrack ∉ t) ∧
    ∀ env : Env Signer PublicKey Curve,
      (scanHostKey env host).log = [Event.scanHostKey host, Event.sshScan (scanAddress host)] := by
  have e22 : host ++ lit ":" ++ lit (Nat.repr defaultSSHPort) = host ++ colon :: lit "22" := by
    rw [List.append_assoc, port_suffix]
  have e22b : host ++ lit ":22" = host ++ colon :: lit "22" := by
    congr 1
  refine ⟨?_, ?_, ?_, fun env => scanHostKey_log env host⟩
  · intro h
    unfold hasPort at h
    unfold scanAddress
    cases hs : SplitHostPort host with
    | error why => simp [hs] at h
    | ok parts => rfl
  · intro h
    unfold hasPort at h
    unfold scanAddress
    cases hs : SplitHostPort host with
    | error why => exact e22.trans e22b.symm
    | ok parts => simp [hs] at h
  · cases hs : SplitHostPort host with
    | ok parts =>
      have h1 : hasPort host = true := by simp [hasPort, hs]
      have h2 : scanAddress host = host := by simp [scanAddress, hs]
      simp [h1, h2]
    | error why =>
      have h1 : hasPort host = false := by simp [hasPort, hs]
      have h2 : scanAddress host = host ++ colon :: lit "22" := by
        simp only [scanAddress, hs]
        exact e22
      rw [h2, h1]
      constructor
      · intro h
        right
        unfold hasPort at h
        cases hp : SplitHostPort (host ++ colon :: lit "22") with
        | error why2 => simp [hp] at h
        | ok parts => exact SplitHostPort_port_inv host parts hp
      · rintro (h | ⟨c1, c2, c3⟩ | ⟨t, rfl, c2, c3⟩)
        · cases h
        · simp [hasPort, SplitHostPort_plain host c1 c2 c3]
        · unfold hasPort
          rw [SplitHostPort_bracketed t c2 c3]

/-- The witness of C10 as amended: a host name without port, and one with a port. -/
theorem scanAddress_port_witness :
    hasPort (lit "github.com") = false ∧
    scanAddress (lit "github.com") = lit "github.com" ++ lit ":22" ∧
    hasPort (scanAddress (lit "github.com")) = true ∧
    hasPort (lit "github.com:2222") = true ∧
    scanAddress (lit "github.com:2222") = lit "github.com:2222" :=
  ⟨by decide,
    (@scanAddress_port Bytes Bytes Bytes (lit "github.com")).2.1 (by decide),
    (@scanAddress_port Bytes Bytes Bytes (lit "github.com")).2.2.1.2
      (Or.inr (Or.inl (by decide))),
    by decide,
    (@scanAddress_port Bytes Bytes Bytes (lit "github.com:2222")).1 (by decide)⟩

/-- The counterexample to C10 as stated: for the IPv6 address `::1`, written without
brackets, the address handed to the scan is `::1:22`, which `net.SplitHostPort` refuses as
it refuses `::1`. -/
theorem scanAddress_port_counterexample :
    hasPort (lit "::1") = false ∧ scanAddress (lit "::1") = lit "::1:22" ∧
    hasPort (scanAddress (lit "::1")) = false ∧
    SplitHostPort (scanAddress (lit "::1")) = .error (lit "too many colons in address") := by
  decide

end Proofs

end Deploysecret
